import Mathlib

/-!
Verification of the single-pass PL/0-style parser / code generator
(`src/code_generator.c`) against its natural-language specification.

The C file is shallowly embedded below.  The generator's global variables
(`_token_list_it`, `currentLevel`, `currentScope`, `symbolTable`, `vmCode`,
`nextCodeIndex`) become an explicit state record threaded through every
grammar production.  The mutually recursive grammar procedures become one
fuel-indexed structural recursion `run` over a tag type, with one wrapper
definition per C function keeping the source's names.

Parts of the repository that the C file uses but whose sources are not in
`src/` (the headers `token.h`, `data.h`, `symbol.h` and the symbol-table
implementation) are modelled from the specification; each such definition
carries a doc comment starting with "Modelled from the spec:".
-/

namespace PL0

/-- Modelled from the spec: the lexical token categories of `token.h`
(identifier, number, keywords, operators, punctuation, and the end-of-stream
sentinel `nulsym`), which is not part of `src/`. -/
inductive Tok where
  | nulsym | identsym | numbersym | plussym | minussym | multsym | slashsym
  | oddsym | eqsym | neqsym | lessym | leqsym | gtrsym | geqsym
  | lparentsym | rparentsym | commasym | semicolonsym | periodsym | becomessym
  | beginsym | endsym | ifsym | thensym | elsesym | whilesym | dosym
  | callsym | constsym | varsym | procsym | writesym | readsym
  deriving DecidableEq

/-- Modelled from the spec: a token is a lexical category plus, for
identifiers and numbers, the literal text (`lexeme`). -/
structure Token where
  id : Tok
  lexeme : String
  deriving DecidableEq

/-- Modelled from the spec: the VM opcodes named in `data.h` (not in `src/`)
and used by the generator.  Only their identities matter here, not their
numeric encodings. -/
inductive Op where
  | LIT | LOD | STO | CAL | INC | JMP | JPC | RTN
  | NEG | ADD | SUB | MUL | DIV | ODD
  | EQL | NEQ | LSS | LEQ | GTR | GEQ
  | SIO_WRITE | SIO_READ | SIO_HALT
  deriving DecidableEq

/-- The four-field VM instruction `{op, r, l, m}` of `data.h`. -/
structure Instr where
  op : Op
  r : Int
  l : Int
  m : Int
  deriving DecidableEq

/-- Modelled from the spec: symbol kinds `CONST`, `VAR`, `PROC` of
`symbol.h` (not in `src/`). -/
inductive SymType where
  | CONST | VAR | PROC
  deriving DecidableEq

/-- Modelled from the spec: a symbol-table entry
`{name, type, level, scope, value, address}` of `symbol.h` (not in `src/`).
The C `scope` field is a `Symbol*` pointer to the enclosing `PROC` symbol
(`NULL` for global scope); pointer identity is modelled by a unique natural
number allocated when the `PROC` symbol is created, so `scope : Option Nat`.
A `PROC` symbol additionally records its own identity in `selfId`.
`value` is left `0` where the C code leaves the malloc'd field
uninitialized (no claim depends on those fields). -/
structure Symbol where
  name : String
  type : SymType
  level : Nat
  scope : Option Nat
  value : Int
  address : Int
  selfId : Option Nat
  deriving DecidableEq

/-- The generator's global variables other than the instruction array:
the token iterator (`tokenList`, `currentTokenInd`), `currentLevel`,
`currentScope`, the symbol table (newest entry first), `nextCodeIndex`,
a counter allocating fresh `PROC` identities (modelling malloc addresses),
and a ghost trace recording every address whose `m` field is overwritten
by a `vmCode[addr].m = ...` backpatch assignment. -/
structure Core where
  tokenList : List Token
  currentTokenInd : Nat
  currentLevel : Nat
  currentScope : Option Nat
  symbolTable : List Symbol
  nextCodeIndex : Nat
  nextScopeId : Nat
  patchTrace : List Nat
  deriving DecidableEq

/-- The whole mutable state: `core` plus the instruction array `vmCode`.
`vmCode` models the C global array `Instruction vmCode[MAX_CODE_LENGTH]`,
whose cells persist across calls of `codeGenerator`; it always has length
`MAX_CODE_LENGTH` in the C program, with arbitrary initial contents. -/
structure CGState where
  core : Core
  vmCode : List Instr
  deriving DecidableEq

/-- Outcome of a grammar procedure.  `ok` is a normal return of error code 0
together with the mutated globals; `err e` is a nonzero error code returned
up the descent (the C globals still exist at that point, but every caller
immediately propagates the code and `codeGenerator` then discards the state,
so the state is not carried); `fatal` is the `exit(0)` performed by `emit`
when `MAX_CODE_LENGTH` is reached; `nullDeref` marks the undefined behaviour
of dereferencing the `NULL` result of `findSymbol` (statement's branches do
this without a check); `nofuel` is an artifact of the fuel embedding and
corresponds to no C behaviour. -/
inductive Res (α : Type) where
  | ok : α → CGState → Res α
  | err : Nat → Res α
  | fatal : Res α
  | nullDeref : Res α
  | nofuel : Res α
  deriving DecidableEq

/-- Sequencing of the C pattern `x = f(...); if(err) return err; ...`:
continue on a normal return, propagate everything else. -/
def mbind {α β : Type} (x : Res α) (f : α → CGState → Res β) : Res β :=
  match x with
  | Res.ok a s => f a s
  | Res.err e => Res.err e
  | Res.fatal => Res.fatal
  | Res.nullDeref => Res.nullDeref
  | Res.nofuel => Res.nofuel

/-- Modelled from the spec: the capacity bound `MAX_CODE_LENGTH` of
`data.h` (not in `src/`).  Its exact numeric value is immaterial to every
property proved here. -/
def MAX_CODE_LENGTH : Nat := 1000

/-- `getCurrentToken`: the token at the iterator position, or the `nulsym`
sentinel past the end of the list (its lexeme is modelled as `""`).  It
reads only the `Core` part of the state. -/
def getCurrentToken (c : Core) : Token :=
  (c.tokenList.get? c.currentTokenInd).getD { id := Tok.nulsym, lexeme := "" }

/-- `getCurrentTokenType`: the id of the current token. -/
def getCurrentTokenType (c : Core) : Tok :=
  (getCurrentToken c).id

/-- `nextToken`: advance the iterator by one. -/
def nextTokenS (s : CGState) : CGState :=
  { s with core := { s.core with currentTokenInd := s.core.currentTokenInd + 1 } }

/-- `addSymbol(&symbolTable, *newSym)`: append a copy of the symbol
(newest first, so that later declarations with the same name are found
first). -/
def pushSym (sym : Symbol) (s : CGState) : CGState :=
  { s with core := { s.core with symbolTable := sym :: s.core.symbolTable } }

/-- Append a `PROC` symbol and consume the fresh scope identity it carries. -/
def pushProc (sym : Symbol) (s : CGState) : CGState :=
  { s with core := { s.core with symbolTable := sym :: s.core.symbolTable,
                                 nextScopeId := s.core.nextScopeId + 1 } }

/-- Assignments to the globals `currentLevel` and `currentScope`. -/
def setLevelScope (lvl : Nat) (sc : Option Nat) (s : CGState) : CGState :=
  { s with core := { s.core with currentLevel := lvl, currentScope := sc } }

/-- `emit(OP, R, L, M)`: if `nextCodeIndex == MAX_CODE_LENGTH`, print a
message on stderr and `exit(0)` (modelled by `Res.fatal`); otherwise write
the instruction to `vmCode[nextCodeIndex]` and return `nextCodeIndex`
post-incremented. -/
def emit (op : Op) (r l m : Int) (s : CGState) : Res Nat :=
  if s.core.nextCodeIndex = MAX_CODE_LENGTH then
    Res.fatal
  else
    Res.ok s.core.nextCodeIndex
      { s with vmCode := s.vmCode.set s.core.nextCodeIndex { op := op, r := r, l := l, m := m },
               core := { s.core with nextCodeIndex := s.core.nextCodeIndex + 1 } }

/-- The backpatch assignment `vmCode[a].m = v` (the other three fields are
kept), plus the ghost record of the patched address. -/
def patchM (a : Nat) (v : Int) (s : CGState) : CGState :=
  let newCode : List Instr :=
    match s.vmCode.get? a with
    | some i => s.vmCode.set a { i with m := v }
    | none => s.vmCode
  { s with vmCode := newCode,
           core := { s.core with patchTrace := s.core.patchTrace ++ [a] } }

/-- C `atoi` on the digit part: accumulate leading decimal digits. -/
def atoiDigits : List Char → Int → Int
  | c :: cs, acc => if c.isDigit then atoiDigits cs (acc * 10 + (c.toNat - '0'.toNat : Nat)) else acc
  | [], acc => acc

/-- C `atoi`: optional sign followed by leading decimal digits; `0` when no
digits are present.  (The lexer never produces leading whitespace, so
whitespace skipping is omitted.) -/
def atoi (str : String) : Int :=
  match str.toList with
  | '-' :: cs => - atoiDigits cs 0
  | '+' :: cs => atoiDigits cs 0
  | cs => atoiDigits cs 0

/-- Newest symbol with the given name declared exactly in the given scope. -/
def lookupInScope (tbl : List Symbol) (sc : Option Nat) (name : String) : Option Symbol :=
  tbl.find? (fun sym => sym.name == name && sym.scope == sc)

/-- The scope recorded as enclosing a given `PROC` identity. -/
def scopeParent (tbl : List Symbol) (k : Nat) : Option (Option Nat) :=
  (tbl.find? (fun sym => sym.selfId == some k)).map (fun sym => sym.scope)

/-- The chain of scopes visible from a scope: itself, then its enclosing
scopes out to the global scope.  The fuel is an upper bound on the chain
length; `findSymbol` passes the table length plus one. -/
def scopeChain (tbl : List Symbol) : Nat → Option Nat → List (Option Nat)
  | 0, sc => [sc]
  | _ + 1, none => [none]
  | fuel + 1, some k =>
      some k ::
        (match scopeParent tbl k with
         | some p => scopeChain tbl fuel p
         | none => [])

/-- Modelled from the spec: `findSymbol(&symbolTable, scope, name)` of the
symbol-table implementation (not in `src/`).  Per the spec's contract it
returns the most relevant symbol with the given name visible from `scope`
(nearest enclosing scope first, newest insertion first within a scope), or
none/`NULL` when no such symbol exists. -/
def findSymbol (tbl : List Symbol) (sc : Option Nat) (name : String) : Option Symbol :=
  (scopeChain tbl (tbl.length + 1) sc).findSome? (fun c => lookupInScope tbl c name)

/-- The six relational operators recognized in `condition` and the
comparison instruction each one emits; any other token yields `none`
(error code 12 in `condition`). -/
def relOp : Tok → Option Op
  | Tok.eqsym => some Op.EQL
  | Tok.neqsym => some Op.NEQ
  | Tok.leqsym => some Op.LEQ
  | Tok.geqsym => some Op.GEQ
  | Tok.lessym => some Op.LSS
  | Tok.gtrsym => some Op.GTR
  | _ => none

/-- Tags naming the mutually recursive grammar procedures of the C file.
`blockDecls` is the declaration section of `block` (lines 252–265),
`constLoop` / `varLoop` are the do-while loops inside `const_declaration` /
`var_declaration`, `stmtSemiLoop` is the semicolon-separated while loop of
the `begin` branch of `statement`, and `exprLoop` / `termLoop` are the
operator chains of `expression` / `term` — each loop carries the operator
variable `op` that the C code captured before entering the loop. -/
inductive CallTag where
  | program | block | blockDecls
  | const_declaration | constLoop
  | var_declaration | varLoop
  | proc_declaration
  | statement | stmtSemiLoop
  | condition
  | expression | exprLoop (op : Tok)
  | term | termLoop (op : Tok)
  | factor
  deriving DecidableEq

/-- The recursive-descent generator: one fuel-indexed structural recursion
covering every grammar procedure of `src/code_generator.c`.  Each branch is
a line-by-line transcription of the corresponding C function; see the
per-name wrapper definitions below. -/
def run : Nat → CallTag → CGState → Res Unit
  | 0, _, _ => Res.nofuel
  | fuel + 1, c, s =>
    match c with
    | CallTag.program =>
        -- program(): block, then periodsym, then emit(SIO_HALT,0,0,3).
        mbind (run fuel CallTag.block s) fun _ s =>
        if getCurrentTokenType s.core = Tok.periodsym then
          mbind (emit Op.SIO_HALT 0 0 3 (nextTokenS s)) fun _ s => Res.ok () s
        else Res.err 6
    | CallTag.block =>
        -- block(): placeholder JMP, declarations, backpatch, INC 4,
        -- statement, RTN.
        mbind (emit Op.JMP 0 0 0 s) fun jmpAddr s =>
        mbind (run fuel CallTag.blockDecls s) fun _ s =>
        mbind (emit Op.INC 0 0 4 (patchM jmpAddr (Int.ofNat s.core.nextCodeIndex) s)) fun _ s =>
        mbind (run fuel CallTag.statement s) fun _ s =>
        mbind (emit Op.RTN 0 0 0 s) fun _ s => Res.ok () s
    | CallTag.blockDecls =>
        -- block() lines 252–265: at most one const, then one var, then one
        -- proc declaration group, each guarded by its leading keyword, with
        -- immediate error propagation.
        mbind (if getCurrentTokenType s.core = Tok.constsym then
                 run fuel CallTag.const_declaration s
               else Res.ok () s) fun _ s =>
        mbind (if getCurrentTokenType s.core = Tok.varsym then
                 run fuel CallTag.var_declaration s
               else Res.ok () s) fun _ s =>
        if getCurrentTokenType s.core = Tok.procsym then
          run fuel CallTag.proc_declaration s
        else Res.ok () s
    | CallTag.const_declaration =>
        mbind (run fuel CallTag.constLoop s) fun _ s =>
        if getCurrentTokenType s.core = Tok.semicolonsym then Res.ok () (nextTokenS s)
        else Res.err 10
    | CallTag.constLoop =>
        -- const_declaration() do-while body: `ident = number`, insert a
        -- CONST symbol; repeat while a comma follows.
        let lvl := s.core.currentLevel
        let sc := s.core.currentScope
        let s := nextTokenS s
        if getCurrentTokenType s.core ≠ Tok.identsym then Res.err 3 else
        let nm := (getCurrentToken s.core).lexeme
        let s := nextTokenS s
        if getCurrentTokenType s.core ≠ Tok.eqsym then Res.err 2 else
        let s := nextTokenS s
        if getCurrentTokenType s.core ≠ Tok.numbersym then Res.err 1 else
        let v := atoi (getCurrentToken s.core).lexeme
        let s := pushSym { name := nm, type := SymType.CONST, level := lvl, scope := sc,
                           value := v, address := 0, selfId := none } s
        let s := nextTokenS s
        if getCurrentTokenType s.core = Tok.commasym then run fuel CallTag.constLoop s
        else Res.ok () s
    | CallTag.var_declaration =>
        mbind (run fuel CallTag.varLoop s) fun _ s =>
        if getCurrentTokenType s.core = Tok.semicolonsym then Res.ok () (nextTokenS s)
        else Res.err 4
    | CallTag.varLoop =>
        -- var_declaration() do-while body: the VAR symbol's address is the
        -- emitter position captured before the identifier is read, then one
        -- INC 1 is emitted per variable; repeat while a comma follows.
        let lvl := s.core.currentLevel
        let sc := s.core.currentScope
        let addr := s.core.nextCodeIndex
        let s := nextTokenS s
        if getCurrentTokenType s.core ≠ Tok.identsym then Res.err 3 else
        let s := pushSym { name := (getCurrentToken s.core).lexeme, type := SymType.VAR, level := lvl,
                           scope := sc, value := 0, address := Int.ofNat addr, selfId := none } s
        mbind (emit Op.INC 0 0 1 s) fun _ s =>
        let s := nextTokenS s
        if getCurrentTokenType s.core = Tok.commasym then run fuel CallTag.varLoop s
        else Res.ok () s
    | CallTag.proc_declaration =>
        -- proc_declaration() while loop: insert the PROC symbol (address =
        -- current emitter position), then compile its block one level
        -- deeper with the new symbol as scope, restoring both afterwards.
        if getCurrentTokenType s.core = Tok.procsym then
          let tempScope := s.core.currentScope
          let lvl := s.core.currentLevel
          let addr := s.core.nextCodeIndex
          let s := nextTokenS s
          if getCurrentTokenType s.core ≠ Tok.identsym then Res.err 3 else
          let k := s.core.nextScopeId
          let s := pushProc { name := (getCurrentToken s.core).lexeme, type := SymType.PROC,
                              level := lvl, scope := tempScope, value := 0,
                              address := Int.ofNat addr, selfId := some k } s
          let s := nextTokenS s
          if getCurrentTokenType s.core ≠ Tok.semicolonsym then Res.err 5 else
          let s := nextTokenS s
          let s := setLevelScope (s.core.currentLevel + 1) (some k) s
          mbind (run fuel CallTag.block s) fun _ s =>
          let s := setLevelScope (s.core.currentLevel - 1) tempScope s
          if getCurrentTokenType s.core ≠ Tok.semicolonsym then Res.err 5 else
          run fuel CallTag.proc_declaration (nextTokenS s)
        else Res.ok () s
    | CallTag.statement =>
        if getCurrentTokenType s.core = Tok.identsym then
          -- assignment: the findSymbol result is dereferenced (scope read)
          -- without a NULL check; note that no STO is emitted.
          match findSymbol s.core.symbolTable s.core.currentScope (getCurrentToken s.core).lexeme with
          | none => Res.nullDeref
          | some currSym =>
            if currSym.scope ≠ s.core.currentScope then Res.err 15 else
            if currSym.type ≠ SymType.VAR then Res.err 16 else
            let s := nextTokenS s
            if getCurrentTokenType s.core ≠ Tok.becomessym then Res.err 7 else
            mbind (run fuel CallTag.expression (nextTokenS s)) fun _ s => Res.ok () s
        else if getCurrentTokenType s.core = Tok.callsym then
          let s := nextTokenS s
          if getCurrentTokenType s.core ≠ Tok.identsym then Res.err 8 else
          match findSymbol s.core.symbolTable s.core.currentScope (getCurrentToken s.core).lexeme with
          | none => Res.nullDeref
          | some currSym =>
            if currSym.scope ≠ s.core.currentScope then Res.err 15 else
            if currSym.type = SymType.PROC then
              mbind (emit Op.CAL 0 (Int.ofNat s.core.currentLevel - Int.ofNat currSym.level)
                       currSym.address s) fun _ s =>
              Res.ok () (nextTokenS s)
            else Res.err 17
        else if getCurrentTokenType s.core = Tok.beginsym then
          mbind (run fuel CallTag.statement (nextTokenS s)) fun _ s =>
          mbind (run fuel CallTag.stmtSemiLoop s) fun _ s =>
          if getCurrentTokenType s.core ≠ Tok.endsym then Res.err 10 else Res.ok () (nextTokenS s)
        else if getCurrentTokenType s.core = Tok.ifsym then
          -- conditional: placeholder JPC, then-branch, patch; on else:
          -- placeholder JMP, patch it to the position right after itself,
          -- else-branch, patch the JPC again.
          mbind (run fuel CallTag.condition (nextTokenS s)) fun _ s =>
          if getCurrentTokenType s.core ≠ Tok.thensym then Res.err 9 else
          let s := nextTokenS s
          let jmp := s.core.nextCodeIndex
          mbind (emit Op.JPC 0 0 0 s) fun _ s =>
          mbind (run fuel CallTag.statement s) fun _ s0 =>
          -- the backpatch `vmCode[jmp].m = nextCodeIndex`; the token and
          -- emitter-position reads below are unaffected by it, so they are
          -- written against the pre-patch state `s0`
          let s := patchM jmp (Int.ofNat s0.core.nextCodeIndex) s0
          if getCurrentTokenType s0.core = Tok.elsesym then
            let jmp2 := s0.core.nextCodeIndex
            mbind (emit Op.JMP 0 0 0 s) fun _ s1 =>
            let s2 := nextTokenS s1
            let s3 := patchM jmp2 (Int.ofNat s2.core.nextCodeIndex) s2
            mbind (run fuel CallTag.statement s3) fun _ s4 =>
            Res.ok () (patchM jmp (Int.ofNat s4.core.nextCodeIndex) s4)
          else Res.ok () s
        else if getCurrentTokenType s.core = Tok.whilesym then
          let jmp := s.core.nextCodeIndex
          mbind (run fuel CallTag.condition (nextTokenS s)) fun _ s =>
          let jmp2 := s.core.nextCodeIndex
          mbind (emit Op.JPC 0 0 0 s) fun _ s =>
          if getCurrentTokenType s.core ≠ Tok.dosym then Res.err 11 else
          mbind (run fuel CallTag.statement (nextTokenS s)) fun _ s =>
          mbind (emit Op.JMP 0 0 (Int.ofNat jmp) s) fun _ s =>
          Res.ok () (patchM jmp2 (Int.ofNat s.core.nextCodeIndex) s)
        else if getCurrentTokenType s.core = Tok.writesym then
          let s := nextTokenS s
          if getCurrentTokenType s.core ≠ Tok.identsym then Res.err 3 else
          match findSymbol s.core.symbolTable s.core.currentScope (getCurrentToken s.core).lexeme with
          | none => Res.nullDeref
          | some currSym =>
            if currSym.scope ≠ s.core.currentScope then Res.err 15 else
            if currSym.type = SymType.PROC then Res.err 18 else
            mbind (emit Op.LOD 0 (Int.ofNat s.core.currentLevel - Int.ofNat currSym.level)
                     currSym.address s) fun _ s =>
            mbind (emit Op.SIO_WRITE 0 0 0 s) fun _ s =>
            Res.ok () (nextTokenS s)
        else if getCurrentTokenType s.core = Tok.readsym then
          mbind (emit Op.SIO_READ 0 0 0 s) fun _ s =>
          let s := nextTokenS s
          if getCurrentTokenType s.core ≠ Tok.identsym then Res.err 3 else
          match findSymbol s.core.symbolTable s.core.currentScope (getCurrentToken s.core).lexeme with
          | none => Res.nullDeref
          | some currSym =>
            if currSym.scope ≠ s.core.currentScope then Res.err 15 else
            if currSym.type ≠ SymType.VAR then Res.err 19 else
            let s := nextTokenS s
            mbind (emit Op.STO 0 (Int.ofNat s.core.currentLevel - Int.ofNat currSym.level)
                     currSym.address s) fun _ s =>
            Res.ok () s
        else Res.ok () s
    | CallTag.stmtSemiLoop =>
        if getCurrentTokenType s.core = Tok.semicolonsym then
          mbind (run fuel CallTag.statement (nextTokenS s)) fun _ s =>
          run fuel CallTag.stmtSemiLoop s
        else Res.ok () s
    | CallTag.condition =>
        -- condition(): odd-branch or relational branch; note that the C
        -- code falls through to a second `expression()` call (line 654) in
        -- BOTH branches, and in the relational branch the comparison is
        -- emitted before that second expression.
        mbind
          (if getCurrentTokenType s.core = Tok.oddsym then
            mbind (run fuel CallTag.expression (nextTokenS s)) fun _ s =>
            mbind (emit Op.ODD 0 0 0 s) fun _ s => Res.ok () s
          else
            mbind (run fuel CallTag.expression s) fun _ s =>
            match relOp (getCurrentTokenType s.core) with
            | some op => mbind (emit op 0 0 0 s) fun _ s => Res.ok () (nextTokenS s)
            | none => Res.err 12) fun _ s =>
        mbind (run fuel CallTag.expression s) fun _ s => Res.ok () s
    | CallTag.expression =>
        -- expression(): `op` is read once from the current token and never
        -- re-read; the unary branch parses a term (and NEG on minus), then
        -- an unconditional term is parsed, then the chain loop runs on the
        -- captured `op`.
        let op := getCurrentTokenType s.core
        mbind
          (if op = Tok.plussym ∨ op = Tok.minussym then
            mbind (run fuel CallTag.term (nextTokenS s)) fun _ s =>
            if op = Tok.minussym then
              mbind (emit Op.NEG 0 0 0 s) fun _ s => Res.ok () s
            else Res.ok () s
          else Res.ok () s) fun _ s =>
        mbind (run fuel CallTag.term s) fun _ s =>
        run fuel (CallTag.exprLoop op) s
    | CallTag.exprLoop op =>
        if op = Tok.plussym ∨ op = Tok.minussym then
          mbind (run fuel CallTag.term (nextTokenS s)) fun _ s =>
          mbind (emit (if op = Tok.plussym then Op.ADD else Op.SUB) 0 0 0 s) fun _ s =>
          run fuel (CallTag.exprLoop op) s
        else Res.ok () s
    | CallTag.term =>
        -- term(): same captured-`op` pattern as expression().
        let op := getCurrentTokenType s.core
        mbind (run fuel CallTag.factor s) fun _ s =>
        run fuel (CallTag.termLoop op) s
    | CallTag.termLoop op =>
        if op = Tok.multsym ∨ op = Tok.slashsym then
          mbind (run fuel CallTag.factor (nextTokenS s)) fun _ s =>
          mbind (emit (if op = Tok.multsym then Op.MUL else Op.DIV) 0 0 0 s) fun _ s =>
          run fuel (CallTag.termLoop op) s
        else Res.ok () s
    | CallTag.factor =>
        -- factor(): findSymbol runs on the current token's lexeme before
        -- the token type is examined, and here (only here) the NULL result
        -- is checked, yielding error 15.
        match findSymbol s.core.symbolTable s.core.currentScope (getCurrentToken s.core).lexeme with
        | none => Res.err 15
        | some currSym =>
          if getCurrentTokenType s.core = Tok.identsym then
            if currSym.type = SymType.PROC then Res.err 14
            else if currSym.type = SymType.CONST then
              mbind (emit Op.LIT 0 0 currSym.value s) fun _ s => Res.ok () (nextTokenS s)
            else
              mbind (emit Op.LOD 0 (Int.ofNat s.core.currentLevel - Int.ofNat currSym.level)
                       currSym.address s) fun _ s =>
              Res.ok () (nextTokenS s)
          else if getCurrentTokenType s.core = Tok.numbersym then
            mbind (emit Op.LIT 0 0 (atoi (getCurrentToken s.core).lexeme) s) fun _ s =>
            Res.ok () (nextTokenS s)
          else if getCurrentTokenType s.core = Tok.lparentsym then
            mbind (run fuel CallTag.expression (nextTokenS s)) fun _ s =>
            if getCurrentTokenType s.core ≠ Tok.rparentsym then Res.err 13
            else Res.ok () (nextTokenS s)
          else Res.err 14

/-- `program()` of the C file. -/
def program (fuel : Nat) (s : CGState) : Res Unit := run fuel CallTag.program s

/-- `block()` of the C file. -/
def block (fuel : Nat) (s : CGState) : Res Unit := run fuel CallTag.block s

/-- The declaration section of `block()` (C lines 252–265). -/
def blockDecls (fuel : Nat) (s : CGState) : Res Unit := run fuel CallTag.blockDecls s

/-- `const_declaration()` of the C file. -/
def const_declaration (fuel : Nat) (s : CGState) : Res Unit :=
  run fuel CallTag.const_declaration s

/-- `var_declaration()` of the C file. -/
def var_declaration (fuel : Nat) (s : CGState) : Res Unit :=
  run fuel CallTag.var_declaration s

/-- `proc_declaration()` of the C file. -/
def proc_declaration (fuel : Nat) (s : CGState) : Res Unit :=
  run fuel CallTag.proc_declaration s

/-- `statement()` of the C file. -/
def statement (fuel : Nat) (s : CGState) : Res Unit := run fuel CallTag.statement s

/-- `condition()` of the C file. -/
def condition (fuel : Nat) (s : CGState) : Res Unit := run fuel CallTag.condition s

/-- `expression()` of the C file. -/
def expression (fuel : Nat) (s : CGState) : Res Unit := run fuel CallTag.expression s

/-- `term()` of the C file. -/
def term (fuel : Nat) (s : CGState) : Res Unit := run fuel CallTag.term s

/-- `factor()` of the C file. -/
def factor (fuel : Nat) (s : CGState) : Res Unit := run fuel CallTag.factor s

/-- The state `codeGenerator` builds at entry: iterator at position 0,
level 0, global scope, fresh symbol table, `nextCodeIndex = 0` — while the
instruction array keeps whatever contents it had (`initVmCode`), since the
C global `vmCode` is never cleared. -/
def initState (tokenList : List Token) (initVmCode : List Instr) : CGState :=
  { core := { tokenList := tokenList, currentTokenInd := 0, currentLevel := 0,
              currentScope := none, symbolTable := [], nextCodeIndex := 0,
              nextScopeId := 0, patchTrace := [] },
    vmCode := initVmCode }

/-- Observable outcome of one `codeGenerator` call: the returned error code
together with the instruction lines `printEmittedCodes` writes to the output
file (`vmCode[0..nextCodeIndex)`, empty when the error code is nonzero), or
one of the non-returning outcomes. -/
inductive CGResult where
  | done : Nat → List Instr → CGResult
  | fatal : CGResult
  | nullDeref : CGResult
  | nofuel : CGResult
  deriving DecidableEq

/-- `codeGenerator(tokenList, out)` of the C file: reset the globals, parse
`program`, and print the emitted code exactly when the error code is 0. -/
def codeGenerator (fuel : Nat) (tokenList : List Token) (initVmCode : List Instr) : CGResult :=
  match run fuel CallTag.program (initState tokenList initVmCode) with
  | Res.ok _ s => CGResult.done 0 (s.vmCode.take s.core.nextCodeIndex)
  | Res.err e => CGResult.done e []
  | Res.fatal => CGResult.fatal
  | Res.nullDeref => CGResult.nullDeref
  | Res.nofuel => CGResult.nofuel

/-- The final state of a normally returning run (used to observe the ghost
backpatch trace). -/
def resState : Res Unit → Option CGState
  | Res.ok _ s => some s
  | _ => none

/-- A token literal. -/
def tkn (t : Tok) (lx : String) : Token := { id := t, lexeme := lx }

/-- An all-zero instruction, standing in for arbitrary initial contents of
the C global array `vmCode`. -/
def zeroInstr : Instr := { op := Op.LIT, r := 0, l := 0, m := 0 }

/-- A second, different residual-cell value, used to show that the initial
contents of `vmCode` do not influence the output. -/
def junkInstr : Instr := { op := Op.RTN, r := 7, l := 7, m := 7 }

/-- A `vmCode` array of the C program's fixed length, zero-filled. -/
def arr0 : List Instr := List.replicate MAX_CODE_LENGTH zeroInstr

/-- A `vmCode` array of the C program's fixed length, junk-filled. -/
def arrJ : List Instr := List.replicate MAX_CODE_LENGTH junkInstr

/-- Token sequence of `const a = 5; var b; begin b := a + 1; write b end.`
(the spec's concrete scenario 1). -/
def c1Tokens : List Token :=
  [tkn Tok.constsym "const", tkn Tok.identsym "a", tkn Tok.eqsym "=",
   tkn Tok.numbersym "5", tkn Tok.semicolonsym ";", tkn Tok.varsym "var",
   tkn Tok.identsym "b", tkn Tok.semicolonsym ";", tkn Tok.beginsym "begin",
   tkn Tok.identsym "b", tkn Tok.becomessym ":=", tkn Tok.identsym "a",
   tkn Tok.plussym "+", tkn Tok.numbersym "1", tkn Tok.semicolonsym ";",
   tkn Tok.writesym "write", tkn Tok.identsym "b", tkn Tok.endsym "end",
   tkn Tok.periodsym "."]

/-- Token sequence of `var x; begin call x end.` (the spec's concrete
scenario 3). -/
def c6Tokens : List Token :=
  [tkn Tok.varsym "var", tkn Tok.identsym "x", tkn Tok.semicolonsym ";",
   tkn Tok.beginsym "begin", tkn Tok.callsym "call", tkn Tok.identsym "x",
   tkn Tok.endsym "end", tkn Tok.periodsym "."]

/-- Token sequence of `var x; begin if x = x then x := x else x := x end.`
— an if/else program that compiles with error code 0. -/
def ifElseTokens : List Token :=
  [tkn Tok.varsym "var", tkn Tok.identsym "x", tkn Tok.semicolonsym ";",
   tkn Tok.beginsym "begin", tkn Tok.ifsym "if", tkn Tok.identsym "x",
   tkn Tok.eqsym "=", tkn Tok.identsym "x", tkn Tok.thensym "then",
   tkn Tok.identsym "x", tkn Tok.becomessym ":=", tkn Tok.identsym "x",
   tkn Tok.elsesym "else", tkn Tok.identsym "x", tkn Tok.becomessym ":=",
   tkn Tok.identsym "x", tkn Tok.endsym "end", tkn Tok.periodsym "."]

/-- Token sequence of `var x; x := y.` where `y` is undeclared: the lookup
failure happens inside `factor`, the one place that checks for NULL. -/
def c10FactorTokens : List Token :=
  [tkn Tok.varsym "var", tkn Tok.identsym "x", tkn Tok.semicolonsym ";",
   tkn Tok.identsym "x", tkn Tok.becomessym ":=", tkn Tok.identsym "y",
   tkn Tok.periodsym "."]

/-- A variable symbol `x` as declared by `var x;` at global scope (its
address is 1: the emitter position after the block's leading jump). -/
def xVarSym : Symbol :=
  { name := "x", type := SymType.VAR, level := 0, scope := none,
    value := 0, address := 1, selfId := none }

/-- A mid-descent state: global scope and level, `x` declared as a
variable, emitter at position 0, about to parse the given tokens. -/
def midState (toks : List Token) : CGState :=
  { core := { tokenList := toks, currentTokenInd := 0, currentLevel := 0,
              currentScope := none, symbolTable := [xVarSym], nextCodeIndex := 0,
              nextScopeId := 0, patchTrace := [] },
    vmCode := arr0 }

/-- State about to parse the expression `x + x` (then `;`). -/
def stExprChain : CGState :=
  midState [tkn Tok.identsym "x", tkn Tok.plussym "+", tkn Tok.identsym "x",
            tkn Tok.semicolonsym ";"]

/-- State about to parse the term `x * x` (then `;`). -/
def stTermChain : CGState :=
  midState [tkn Tok.identsym "x", tkn Tok.multsym "*", tkn Tok.identsym "x",
            tkn Tok.semicolonsym ";"]

/-- State about to parse the condition `x = x` (then `then`). -/
def stCondRel : CGState :=
  midState [tkn Tok.identsym "x", tkn Tok.eqsym "=", tkn Tok.identsym "x",
            tkn Tok.thensym "then"]

/-- State about to parse the condition `odd x` (then `then`). -/
def stCondOdd : CGState :=
  midState [tkn Tok.oddsym "odd", tkn Tok.identsym "x", tkn Tok.thensym "then"]

/-- A state whose emitter has reached the capacity bound (used to exercise
`emit` at the boundary). -/
def fullState : CGState :=
  { core := { tokenList := [], currentTokenInd := 0, currentLevel := 0,
              currentScope := none, symbolTable := [], nextCodeIndex := MAX_CODE_LENGTH,
              nextScopeId := 0, patchTrace := [] },
    vmCode := arr0 }

/-- The state a normal return carries, with a fallback default. -/
def okState (r : Res Unit) (d : CGState) : CGState :=
  match r with
  | Res.ok _ s => s
  | _ => d

/-- Concrete entry state for exercising `block` on an empty token list. -/
def c7wS : CGState := initState [] arr0

/-- The state that concrete `block` run returns. -/
def c7wT : CGState := okState (block 5 c7wS) c7wS

/-- Shape of the code a successful `block` run emits, as the spec describes
it: the leading placeholder jump sits at the entry position and is
backpatched to the position `d` reached after the declaration groups (run
by `blockDecls`: at most one const group, then at most one var group, then
at most one proc group, in that fixed order), the 4-cell frame reservation
`INC 0 0 4` sits at `d`, then the code of exactly one `statement`, then a
return instruction `RTN 0 0 0` as the last emitted cell. -/
def BlockShape (fuel : Nat) (s t : CGState) : Prop :=
  ∃ s1 sd s2 s3 : CGState,
    emit Op.JMP 0 0 0 s = Res.ok s.core.nextCodeIndex s1 ∧
    blockDecls fuel s1 = Res.ok () sd ∧
    emit Op.INC 0 0 4 (patchM s.core.nextCodeIndex (Int.ofNat sd.core.nextCodeIndex) sd)
      = Res.ok sd.core.nextCodeIndex s2 ∧
    statement fuel s2 = Res.ok () s3 ∧
    emit Op.RTN 0 0 0 s3 = Res.ok s3.core.nextCodeIndex t ∧
    t.vmCode.get? s.core.nextCodeIndex
      = some { op := Op.JMP, r := 0, l := 0, m := Int.ofNat sd.core.nextCodeIndex } ∧
    t.vmCode.get? sd.core.nextCodeIndex = some { op := Op.INC, r := 0, l := 0, m := 4 } ∧
    t.vmCode.get? s3.core.nextCodeIndex = some { op := Op.RTN, r := 0, l := 0, m := 0 } ∧
    t.core.nextCodeIndex = s3.core.nextCodeIndex + 1 ∧
    s.core.nextCodeIndex < sd.core.nextCodeIndex ∧
    sd.core.nextCodeIndex + 1 = s2.core.nextCodeIndex ∧
    s2.core.nextCodeIndex ≤ s3.core.nextCodeIndex

/-- Agreement of two generator states up to the residual contents of the
instruction array: the control state (`Core`) coincides, the arrays have
the same length, and they agree on every cell below the common emitter
position — exactly the cells `printEmittedCodes` can ever print. -/
def SAgree (s t : CGState) : Prop :=
  s.core = t.core ∧ s.vmCode.length = t.vmCode.length ∧
  s.vmCode.take s.core.nextCodeIndex = t.vmCode.take s.core.nextCodeIndex

/-- Agreement of two outcomes: same constructor and payload, with agreeing
states on a normal return. -/
def RAgree {α : Type} : Res α → Res α → Prop
  | Res.ok a s, Res.ok b t => a = b ∧ SAgree s t
  | Res.err e, Res.err e2 => e = e2
  | Res.fatal, Res.fatal => True
  | Res.nullDeref, Res.nullDeref => True
  | Res.nofuel, Res.nofuel => True
  | _, _ => False

/-- Effect relation of the emitter: state `t` is obtainable from state `s`
by emissions and backpatches of a production, meaning the array length is
unchanged, the emitter position only grows and stays within the capacity
bound, and every cell below the entry position is untouched. -/
def FGood (s t : CGState) : Prop :=
  t.vmCode.length = s.vmCode.length ∧
  s.core.nextCodeIndex ≤ t.core.nextCodeIndex ∧
  (∀ i, i < s.core.nextCodeIndex → t.vmCode.get? i = s.vmCode.get? i) ∧
  (s.core.nextCodeIndex ≤ MAX_CODE_LENGTH → t.core.nextCodeIndex ≤ MAX_CODE_LENGTH)

/-- Frame property of a production outcome: every normal return leaves a
state reachable in the sense of `FGood`. -/
def Frames {α : Type} (s : CGState) (r : Res α) : Prop :=
  ∀ a t, r = Res.ok a t → FGood s t

/-- Helper list lemma: setting an index does not change other positions. -/
theorem get?_set_ne {α : Type} : ∀ (l : List α) (n i : Nat) (v : α), i ≠ n →
    (l.set n v).get? i = l.get? i
  | [], _, _, _, _ => rfl
  | _ :: _, 0, 0, _, h => absurd rfl h
  | _ :: _, 0, _ + 1, _, _ => rfl
  | _ :: _, _ + 1, 0, _, _ => rfl
  | _ :: as, n + 1, i + 1, v, h => get?_set_ne as n i v (fun e => h (congrArg Nat.succ e))

/-- Helper list lemma: setting an in-bounds index stores the value there. -/
theorem get?_set_self {α : Type} : ∀ (l : List α) (n : Nat) (v : α), n < l.length →
    (l.set n v).get? n = some v
  | _ :: _, 0, _, _ => rfl
  | _ :: as, n + 1, v, h => get?_set_self as n v (Nat.lt_of_succ_lt_succ h)
  | [], n, _, h => absurd h (Nat.not_lt_zero n)

/-- Helper list lemma: a successful lookup is in bounds. -/
theorem get?_some_lt {α : Type} : ∀ (l : List α) (n : Nat) (x : α), l.get? n = some x → n < l.length
  | _ :: _, 0, _, _ => Nat.succ_pos _
  | _ :: as, n + 1, x, h => Nat.succ_lt_succ (get?_some_lt as n x h)
  | [], n, x, h => by simp at h

/-- Helper list lemma: a set at or beyond the taken prefix leaves it alone. -/
theorem take_set_of_le {α : Type} : ∀ (l : List α) (n a : Nat) (v : α), n ≤ a →
    (l.set a v).take n = l.take n
  | [], _, _, _, _ => rfl
  | _ :: _, 0, _, _, _ => rfl
  | _ :: _, n + 1, 0, _, h => absurd h (Nat.not_succ_le_zero n)
  | x :: xs, n + 1, a + 1, v, h => by
      show x :: (xs.set a v).take n = x :: xs.take n
      rw [take_set_of_le xs n a v (Nat.le_of_succ_le_succ h)]

/-- Helper list lemma: equal prefixes have equal elements inside them. -/
theorem get?_congr_of_take {α : Type} : ∀ (l l' : List α) (n a : Nat), a < n →
    l.take n = l'.take n → l.get? a = l'.get? a := by
  intro l
  induction l with
  | nil =>
      intro l' n a h ht
      cases l' with
      | nil => rfl
      | cons y ys =>
          cases n with
          | zero => exact absurd h (Nat.not_lt_zero a)
          | succ n => simp [List.take] at ht
  | cons x xs ih =>
      intro l' n a h ht
      cases l' with
      | nil =>
          cases n with
          | zero => exact absurd h (Nat.not_lt_zero a)
          | succ n => simp [List.take] at ht
      | cons y ys =>
          cases n with
          | zero => exact absurd h (Nat.not_lt_zero a)
          | succ n =>
              simp only [List.take, List.cons.injEq] at ht
              cases a with
              | zero => simp [List.get?, ht.1]
              | succ a =>
                  show xs.get? a = ys.get? a
                  exact ih ys n a (Nat.lt_of_succ_lt_succ h) ht.2

/-- Helper list lemma: a common set preserves equality of prefixes. -/
theorem take_set_congr {α : Type} : ∀ (l l' : List α) (n a : Nat) (v : α),
    l.length = l'.length → l.take n = l'.take n →
    (l.set a v).take n = (l'.set a v).take n := by
  intro l
  induction l with
  | nil =>
      intro l' n a v hlen ht
      cases l' with
      | nil => rfl
      | cons y ys => simp at hlen
  | cons x xs ih =>
      intro l' n a v hlen ht
      cases l' with
      | nil => simp at hlen
      | cons y ys =>
          cases n with
          | zero => rfl
          | succ n =>
              simp only [List.take, List.cons.injEq] at ht
              cases a with
              | zero =>
                  show v :: xs.take n = v :: ys.take n
                  rw [ht.2]
              | succ a =>
                  show x :: (xs.set a v).take n = y :: (ys.set a v).take n
                  rw [ht.1, ih ys n a v (by simpa using hlen) ht.2]

/-- Helper list lemma: extending equal prefixes by a common set at the
boundary keeps them equal. -/
theorem take_succ_set_congr {α : Type} : ∀ (l l' : List α) (n : Nat) (v : α),
    l.length = l'.length → l.take n = l'.take n →
    (l.set n v).take (n + 1) = (l'.set n v).take (n + 1) := by
  intro l
  induction l with
  | nil =>
      intro l' n v hlen ht
      cases l' with
      | nil => rfl
      | cons y ys => simp at hlen
  | cons x xs ih =>
      intro l' n v hlen ht
      cases l' with
      | nil => simp at hlen
      | cons y ys =>
          cases n with
          | zero => rfl
          | succ n =>
              simp only [List.take, List.cons.injEq] at ht
              show x :: (xs.set n v).take (n + 1) = y :: (ys.set n v).take (n + 1)
              rw [ht.1, ih ys n v (by simpa using hlen) ht.2]

/-- `patchM` only rewrites cell `a`. -/
theorem patchM_get?_ne (a : Nat) (v : Int) (s : CGState) (i : Nat) (h : i ≠ a) :
    (patchM a v s).vmCode.get? i = s.vmCode.get? i := by
  unfold patchM
  cases hm : s.vmCode.get? a with
  | none => rfl
  | some i0 => exact get?_set_ne _ _ _ _ h

/-- `patchM` rewrites exactly the `m` field of a present cell. -/
theorem patchM_get?_self (a : Nat) (v : Int) (s : CGState) (i0 : Instr)
    (h : s.vmCode.get? a = some i0) :
    (patchM a v s).vmCode.get? a = some { i0 with m := v } := by
  unfold patchM
  rw [h]
  exact get?_set_self _ _ _ (get?_some_lt _ _ _ h)

/-- `patchM` preserves the array length. -/
theorem patchM_length (a : Nat) (v : Int) (s : CGState) :
    (patchM a v s).vmCode.length = s.vmCode.length := by
  unfold patchM
  cases hm : s.vmCode.get? a with
  | none => rfl
  | some i0 => exact List.length_set _ _ _

/-- `patchM` changes no `core` field other than the ghost trace. -/
theorem patchM_core (a : Nat) (v : Int) (s : CGState) :
    (patchM a v s).core = { s.core with patchTrace := s.core.patchTrace ++ [a] } := rfl

/-- Inversion of a successful `emit`. -/
theorem emit_ok_inv {op : Op} {r l m : Int} {s : CGState} {a : Nat} {t : CGState}
    (h : emit op r l m s = Res.ok a t) :
    a = s.core.nextCodeIndex ∧ s.core.nextCodeIndex ≠ MAX_CODE_LENGTH ∧
    t.vmCode = s.vmCode.set s.core.nextCodeIndex { op := op, r := r, l := l, m := m } ∧
    t.core = { s.core with nextCodeIndex := s.core.nextCodeIndex + 1 } := by
  unfold emit at h
  split at h
  · exact absurd h (by simp)
  · rename_i hne
    injection h with h1 h2
    subst h1
    subst h2
    exact ⟨rfl, hne, rfl, rfl⟩

/-- `FGood` is reflexive. -/
theorem FGood_refl (s : CGState) : FGood s s :=
  ⟨rfl, Nat.le_refl _, fun _ _ => rfl, fun h => h⟩

/-- `FGood` is transitive. -/
theorem FGood_trans {s t u : CGState} (h1 : FGood s t) (h2 : FGood t u) : FGood s u := by
  obtain ⟨a1, b1, c1, d1⟩ := h1
  obtain ⟨a2, b2, c2, d2⟩ := h2
  exact ⟨a2.trans a1, Nat.le_trans b1 b2,
         fun i hi => (c2 i (Nat.lt_of_lt_of_le hi b1)).trans (c1 i hi),
         fun h => d2 (d1 h)⟩

/-- A successful `emit` is an `FGood` step. -/
theorem FGood_emit {op : Op} {r l m : Int} {s : CGState} {a : Nat} {t : CGState}
    (h : emit op r l m s = Res.ok a t) : FGood s t := by
  obtain ⟨-, hne, hvm, hcore⟩ := emit_ok_inv h
  refine ⟨?_, ?_, ?_, ?_⟩
  · rw [hvm]; exact List.length_set _ _ _
  · rw [hcore]; exact Nat.le_succ _
  · intro i hi
    rw [hvm]
    exact get?_set_ne _ _ _ _ (Nat.ne_of_lt hi)
  · intro hle
    rw [hcore]
    exact Nat.succ_le_of_lt (Nat.lt_of_le_of_ne hle hne)

/-- Backpatching at or above the entry position preserves `FGood`. -/
theorem FGood_patch {s t : CGState} (a : Nat) (v : Int) (h : FGood s t)
    (ha : s.core.nextCodeIndex ≤ a) : FGood s (patchM a v t) := by
  obtain ⟨h1, h2, h3, h4⟩ := h
  refine ⟨(patchM_length a v t).trans h1, ?_, ?_, ?_⟩
  · rw [patchM_core]; exact h2
  · intro i hi
    rw [patchM_get?_ne a v t i (Nat.ne_of_lt (Nat.lt_of_lt_of_le hi ha))]
    exact h3 i hi
  · intro hle
    rw [patchM_core]
    exact h4 hle

/-- Sequencing preserves the frame property. -/
theorem frames_mbind {α β : Type} {s : CGState} {x : Res α} {f : α → CGState → Res β}
    (hx : Frames s x) (hf : ∀ a s1, x = Res.ok a s1 → Frames s1 (f a s1)) :
    Frames s (mbind x f) := by
  intro b t h
  cases x with
  | ok a s1 => exact FGood_trans (hx a s1 rfl) (hf a s1 rfl b t h)
  | err e => exact absurd h (by simp [mbind])
  | fatal => exact absurd h (by simp [mbind])
  | nullDeref => exact absurd h (by simp [mbind])
  | nofuel => exact absurd h (by simp [mbind])

/-- `emit` has the frame property. -/
theorem frames_emit (op : Op) (r l m : Int) (s : CGState) : Frames s (emit op r l m s) :=
  fun _ _ h => FGood_emit h

/-- A returned state that keeps `vmCode` and the emitter position has the
frame property. -/
theorem frames_pure {α : Type} {s t : CGState} (a : α)
    (hvm : t.vmCode = s.vmCode) (hidx : t.core.nextCodeIndex = s.core.nextCodeIndex) :
    Frames s (Res.ok a t) := by
  intro b u h
  injection h with h1 h2
  subst h2
  exact ⟨by rw [hvm], by rw [hidx], fun i _ => by rw [hvm], fun hle => by rw [hidx]; exact hle⟩

/-- Error outcomes trivially have the frame property. -/
theorem frames_err {α : Type} (s : CGState) (e : Nat) : Frames s (Res.err e : Res α) :=
  fun _ _ h => absurd h (by simp)

/-- The fatal outcome trivially has the frame property. -/
theorem frames_fatal {α : Type} (s : CGState) : Frames s (Res.fatal : Res α) :=
  fun _ _ h => absurd h (by simp)

/-- The null-dereference outcome trivially has the frame property. -/
theorem frames_nullDeref {α : Type} (s : CGState) : Frames s (Res.nullDeref : Res α) :=
  fun _ _ h => absurd h (by simp)

/-- The out-of-fuel outcome trivially has the frame property. -/
theorem frames_nofuel {α : Type} (s : CGState) : Frames s (Res.nofuel : Res α) :=
  fun _ _ h => absurd h (by simp)

/-- A production that only acts above a reached state extends an `FGood`
prefix. -/
theorem frames_after {α : Type} {s t : CGState} {r : Res α}
    (hst : FGood s t) (h : Frames t r) : Frames s r :=
  fun a u hu => FGood_trans hst (h a u hu)

/-- `FGood` for any step that changes neither the array nor the emitter
position (token advance, symbol insertion, level/scope assignment). -/
theorem FGood_same {s t : CGState} (hvm : t.vmCode = s.vmCode)
    (hidx : t.core.nextCodeIndex = s.core.nextCodeIndex) : FGood s t :=
  ⟨by rw [hvm], by rw [hidx], fun i _ => by rw [hvm], fun h => by rw [hidx]; exact h⟩

/-- `nextToken` is an `FGood` step. -/
theorem FGood_next (s : CGState) : FGood s (nextTokenS s) := FGood_same rfl rfl

/-- `FGood` transitivity with the arguments flipped (determines the middle
state from the second step first). -/
theorem FGood_trans2 {s t u : CGState} (h2 : FGood t u) (h1 : FGood s t) : FGood s u :=
  FGood_trans h1 h2

/-- Inversion of a successful sequencing: the first component returned
normally and the continuation ran on its state. -/
theorem mbind_ok_inv {α β : Type} {x : Res α} {f : α → CGState → Res β} {b : β} {t : CGState}
    (h : mbind x f = Res.ok b t) : ∃ a s1, x = Res.ok a s1 ∧ f a s1 = Res.ok b t := by
  cases x with
  | ok a s1 => exact ⟨a, s1, rfl, h⟩
  | err e => exact absurd h (by simp [mbind])
  | fatal => exact absurd h (by simp [mbind])
  | nullDeref => exact absurd h (by simp [mbind])
  | nofuel => exact absurd h (by simp [mbind])

set_option maxHeartbeats 2000000 in
/-- Master frame theorem: every grammar procedure, on a normal return,
leaves the array length unchanged, never rewinds the emitter, keeps it
within the capacity bound, and never touches a cell below its entry
position. -/
theorem frames_run : ∀ (fuel : Nat) (c : CallTag) (s : CGState), Frames s (run fuel c s) := by
  intro fuel
  induction fuel with
  | zero => intro c s; exact frames_nofuel s
  | succ fuel ih =>
    intro c s
    cases c with
    | program =>
        intro a t h
        unfold run at h
        dsimp only at h
        obtain ⟨a1, s1, hb, h⟩ := mbind_ok_inv h
        have g1 : FGood s s1 := ih _ _ _ _ hb
        split at h
        · obtain ⟨a2, s2, he, h⟩ := mbind_ok_inv h
          cases h
          exact FGood_trans g1 (FGood_trans (FGood_next s1) (FGood_emit he))
        · exact absurd h (by simp)
    | block =>
        intro a t h
        unfold run at h
        dsimp only at h
        obtain ⟨jmpAddr, s1, he, h⟩ := mbind_ok_inv h
        obtain ⟨a2, s2, hd, h⟩ := mbind_ok_inv h
        obtain ⟨a3, s3, hei, h⟩ := mbind_ok_inv h
        obtain ⟨a4, s4, hst, h⟩ := mbind_ok_inv h
        obtain ⟨a5, s5, her, h⟩ := mbind_ok_inv h
        cases h
        obtain ⟨hjmp, -, -, -⟩ := emit_ok_inv he
        have g2 : FGood s s2 := FGood_trans (FGood_emit he) (ih _ _ _ _ hd)
        have g3 : FGood s s3 :=
          FGood_trans (FGood_patch jmpAddr _ g2 (Nat.le_of_eq hjmp.symm)) (FGood_emit hei)
        have g4 : FGood s s4 := FGood_trans g3 (ih _ _ _ _ hst)
        exact FGood_trans g4 (FGood_emit her)
    | blockDecls =>
        intro a t h
        unfold run at h
        dsimp only at h
        obtain ⟨a1, s1, h1, h⟩ := mbind_ok_inv h
        obtain ⟨a2, s2, h2, h⟩ := mbind_ok_inv h
        have g1 : FGood s s1 := by
          split at h1
          · exact ih _ _ _ _ h1
          · cases h1; exact FGood_refl _
        have g2 : FGood s1 s2 := by
          split at h2
          · exact ih _ _ _ _ h2
          · cases h2; exact FGood_refl _
        have g3 : FGood s2 t := by
          split at h
          · exact ih _ _ _ _ h
          · cases h; exact FGood_refl _
        exact FGood_trans (FGood_trans g1 g2) g3
    | const_declaration =>
        intro a t h
        unfold run at h
        dsimp only at h
        obtain ⟨a1, s1, h1, h⟩ := mbind_ok_inv h
        have g1 : FGood s s1 := ih _ _ _ _ h1
        split at h
        · cases h; exact FGood_trans g1 (FGood_next s1)
        · exact absurd h (by simp)
    | constLoop =>
        intro a t h
        unfold run at h
        dsimp only at h
        split at h
        · exact absurd h (by simp)
        · split at h
          · exact absurd h (by simp)
          · split at h
            · exact absurd h (by simp)
            · split at h
              · exact FGood_trans2 (ih _ _ _ _ h) (FGood_same rfl rfl)
              · cases h; exact FGood_same rfl rfl
    | var_declaration =>
        intro a t h
        unfold run at h
        dsimp only at h
        obtain ⟨a1, s1, h1, h⟩ := mbind_ok_inv h
        have g1 : FGood s s1 := ih _ _ _ _ h1
        split at h
        · cases h; exact FGood_trans g1 (FGood_next s1)
        · exact absurd h (by simp)
    | varLoop =>
        intro a t h
        unfold run at h
        dsimp only at h
        split at h
        · exact absurd h (by simp)
        · obtain ⟨a1, s1, he, h⟩ := mbind_ok_inv h
          have g1 : FGood s s1 := FGood_trans2 (FGood_emit he) (FGood_same rfl rfl)
          split at h
          · exact FGood_trans g1 (FGood_trans (FGood_next s1) (ih _ _ _ _ h))
          · cases h; exact FGood_trans g1 (FGood_next s1)
    | proc_declaration =>
        intro a t h
        unfold run at h
        dsimp only at h
        split at h
        · split at h
          · exact absurd h (by simp)
          · split at h
            · exact absurd h (by simp)
            · obtain ⟨a1, s1, hb, h⟩ := mbind_ok_inv h
              have g1 : FGood s s1 := FGood_trans2 (ih _ _ _ _ hb) (FGood_same rfl rfl)
              split at h
              · exact absurd h (by simp)
              · exact FGood_trans g1 (FGood_trans2 (ih _ _ _ _ h) (FGood_same rfl rfl))
        · cases h; exact FGood_refl s
    | statement =>
        intro a t h
        unfold run at h
        dsimp only at h
        by_cases t1 : getCurrentTokenType s.core = Tok.identsym
        · -- assignment branch
          rw [if_pos t1] at h
          split at h
          · exact absurd h (by simp)
          · split at h
            · exact absurd h (by simp)
            · split at h
              · exact absurd h (by simp)
              · split at h
                · exact absurd h (by simp)
                · obtain ⟨a1, s1, hx, h⟩ := mbind_ok_inv h
                  cases h
                  exact FGood_trans2 (ih _ _ _ _ hx) (FGood_same rfl rfl)
        · rw [if_neg t1] at h
          by_cases t2 : getCurrentTokenType s.core = Tok.callsym
          · -- call branch
            rw [if_pos t2] at h
            split at h
            · exact absurd h (by simp)
            · split at h
              · exact absurd h (by simp)
              · split at h
                · exact absurd h (by simp)
                · split at h
                  · obtain ⟨a1, s1, he, h⟩ := mbind_ok_inv h
                    cases h
                    exact FGood_trans2 (FGood_trans (FGood_emit he) (FGood_next s1))
                      (FGood_same rfl rfl)
                  · exact absurd h (by simp)
          · rw [if_neg t2] at h
            by_cases t3 : getCurrentTokenType s.core = Tok.beginsym
            · -- begin branch
              rw [if_pos t3] at h
              obtain ⟨a1, s1, h1, h⟩ := mbind_ok_inv h
              obtain ⟨a2, s2, h2, h⟩ := mbind_ok_inv h
              split at h
              · exact absurd h (by simp)
              · cases h
                exact FGood_trans (FGood_next s)
                  (FGood_trans (ih _ _ _ _ h1) (FGood_trans (ih _ _ _ _ h2) (FGood_next s2)))
            · rw [if_neg t3] at h
              by_cases t4 : getCurrentTokenType s.core = Tok.ifsym
              · -- if branch
                rw [if_pos t4] at h
                obtain ⟨a1, s1, hc, h⟩ := mbind_ok_inv h
                have g1 : FGood s s1 := FGood_trans (FGood_next s) (ih _ _ _ _ hc)
                split at h
                · exact absurd h (by simp)
                · obtain ⟨a2, s2, hjpc, h⟩ := mbind_ok_inv h
                  have g2 : FGood s s2 :=
                    FGood_trans g1 (FGood_trans (FGood_next s1) (FGood_emit hjpc))
                  obtain ⟨a3, s3, hth, h⟩ := mbind_ok_inv h
                  have g3 : FGood s s3 := FGood_trans g2 (ih _ _ _ _ hth)
                  split at h
                  · -- else present
                    obtain ⟨a4, s4, hjm, h⟩ := mbind_ok_inv h
                    have g4 : FGood s s4 :=
                      FGood_trans (FGood_patch _ _ g3 g1.2.1) (FGood_emit hjm)
                    obtain ⟨a5, s5, hel, h⟩ := mbind_ok_inv h
                    have g6 : FGood s s5 :=
                      FGood_trans (FGood_patch _ _ (FGood_trans g4 (FGood_next s4)) g3.2.1)
                        (ih _ _ _ _ hel)
                    cases h
                    exact FGood_patch _ _ g6 g1.2.1
                  · cases h
                    exact FGood_patch _ _ g3 g1.2.1
              · rw [if_neg t4] at h
                by_cases t5 : getCurrentTokenType s.core = Tok.whilesym
                · -- while branch
                  rw [if_pos t5] at h
                  obtain ⟨a1, s1, hc, h⟩ := mbind_ok_inv h
                  have g1 : FGood s s1 := FGood_trans (FGood_next s) (ih _ _ _ _ hc)
                  obtain ⟨a2, s2, hjpc, h⟩ := mbind_ok_inv h
                  have g2 : FGood s s2 := FGood_trans g1 (FGood_emit hjpc)
                  split at h
                  · exact absurd h (by simp)
                  · obtain ⟨a3, s3, hst2, h⟩ := mbind_ok_inv h
                    have g3 : FGood s s3 :=
                      FGood_trans g2 (FGood_trans (FGood_next s2) (ih _ _ _ _ hst2))
                    obtain ⟨a4, s4, hjm, h⟩ := mbind_ok_inv h
                    have g4 : FGood s s4 := FGood_trans g3 (FGood_emit hjm)
                    cases h
                    exact FGood_patch _ _ g4 g1.2.1
                · rw [if_neg t5] at h
                  by_cases t6 : getCurrentTokenType s.core = Tok.writesym
                  · -- write branch
                    rw [if_pos t6] at h
                    split at h
                    · exact absurd h (by simp)
                    · split at h
                      · exact absurd h (by simp)
                      · split at h
                        · exact absurd h (by simp)
                        · split at h
                          · exact absurd h (by simp)
                          · obtain ⟨a1, s1, h1, h⟩ := mbind_ok_inv h
                            obtain ⟨a2, s2, h2, h⟩ := mbind_ok_inv h
                            cases h
                            exact FGood_trans2
                              (FGood_trans (FGood_emit h1)
                                (FGood_trans (FGood_emit h2) (FGood_next s2)))
                              (FGood_same rfl rfl)
                  · rw [if_neg t6] at h
                    by_cases t7 : getCurrentTokenType s.core = Tok.readsym
                    · -- read branch
                      rw [if_pos t7] at h
                      obtain ⟨a1, s1, h1, h⟩ := mbind_ok_inv h
                      have g1 : FGood s s1 := FGood_emit h1
                      split at h
                      · exact absurd h (by simp)
                      · split at h
                        · exact absurd h (by simp)
                        · split at h
                          · exact absurd h (by simp)
                          · split at h
                            · exact absurd h (by simp)
                            · obtain ⟨a2, s2, h2, h⟩ := mbind_ok_inv h
                              cases h
                              exact FGood_trans g1
                                (FGood_trans2 (FGood_emit h2) (FGood_same rfl rfl))
                    · rw [if_neg t7] at h
                      cases h
                      exact FGood_refl s
    | stmtSemiLoop =>
        intro a t h
        unfold run at h
        dsimp only at h
        split at h
        · obtain ⟨a1, s1, h1, h⟩ := mbind_ok_inv h
          exact FGood_trans (FGood_next s) (FGood_trans (ih _ _ _ _ h1) (ih _ _ _ _ h))
        · cases h; exact FGood_refl s
    | condition =>
        intro a t h
        unfold run at h
        dsimp only at h
        obtain ⟨a1, s1, h1, h⟩ := mbind_ok_inv h
        have g1 : FGood s s1 := by
          split at h1
          · obtain ⟨a2, s2, h2, h1⟩ := mbind_ok_inv h1
            obtain ⟨a3, s3, h3, h1⟩ := mbind_ok_inv h1
            cases h1
            exact FGood_trans (FGood_next s) (FGood_trans (ih _ _ _ _ h2) (FGood_emit h3))
          · obtain ⟨a2, s2, h2, h1⟩ := mbind_ok_inv h1
            split at h1
            · obtain ⟨a3, s3, h3, h1⟩ := mbind_ok_inv h1
              cases h1
              exact FGood_trans (ih _ _ _ _ h2) (FGood_trans (FGood_emit h3) (FGood_next s3))
            · exact absurd h1 (by simp)
        obtain ⟨a4, s4, h4, h⟩ := mbind_ok_inv h
        cases h
        exact FGood_trans g1 (ih _ _ _ _ h4)
    | expression =>
        intro a t h
        unfold run at h
        dsimp only at h
        obtain ⟨a1, s1, h1, h⟩ := mbind_ok_inv h
        have g1 : FGood s s1 := by
          split at h1
          · obtain ⟨a2, s2, h2, h1⟩ := mbind_ok_inv h1
            have gt : FGood s s2 := FGood_trans (FGood_next s) (ih _ _ _ _ h2)
            split at h1
            · obtain ⟨a3, s3, h3, h1⟩ := mbind_ok_inv h1
              cases h1
              exact FGood_trans gt (FGood_emit h3)
            · cases h1; exact gt
          · cases h1; exact FGood_refl s
        obtain ⟨a4, s4, h4, h⟩ := mbind_ok_inv h
        exact FGood_trans g1 (FGood_trans (ih _ _ _ _ h4) (ih _ _ _ _ h))
    | exprLoop op =>
        intro a t h
        unfold run at h
        dsimp only at h
        split at h
        · obtain ⟨a1, s1, h1, h⟩ := mbind_ok_inv h
          obtain ⟨a2, s2, h2, h⟩ := mbind_ok_inv h
          exact FGood_trans (FGood_next s)
            (FGood_trans (ih _ _ _ _ h1) (FGood_trans (FGood_emit h2) (ih _ _ _ _ h)))
        · cases h; exact FGood_refl s
    | term =>
        intro a t h
        unfold run at h
        dsimp only at h
        obtain ⟨a1, s1, h1, h⟩ := mbind_ok_inv h
        exact FGood_trans (ih _ _ _ _ h1) (ih _ _ _ _ h)
    | termLoop op =>
        intro a t h
        unfold run at h
        dsimp only at h
        split at h
        · obtain ⟨a1, s1, h1, h⟩ := mbind_ok_inv h
          obtain ⟨a2, s2, h2, h⟩ := mbind_ok_inv h
          exact FGood_trans (FGood_next s)
            (FGood_trans (ih _ _ _ _ h1) (FGood_trans (FGood_emit h2) (ih _ _ _ _ h)))
        · cases h; exact FGood_refl s
    | factor =>
        intro a t h
        unfold run at h
        dsimp only at h
        split at h
        · exact absurd h (by simp)
        · split at h
          · split at h
            · exact absurd h (by simp)
            · split at h
              · obtain ⟨a1, s1, h1, h⟩ := mbind_ok_inv h
                cases h
                exact FGood_trans (FGood_emit h1) (FGood_next s1)
              · obtain ⟨a1, s1, h1, h⟩ := mbind_ok_inv h
                cases h
                exact FGood_trans (FGood_emit h1) (FGood_next s1)
          · split at h
            · obtain ⟨a1, s1, h1, h⟩ := mbind_ok_inv h
              cases h
              exact FGood_trans (FGood_emit h1) (FGood_next s1)
            · split at h
              · obtain ⟨a1, s1, h1, h⟩ := mbind_ok_inv h
                split at h
                · exact absurd h (by simp)
                · cases h
                  exact FGood_trans (FGood_next s)
                    (FGood_trans (ih _ _ _ _ h1) (FGood_next s1))
              · exact absurd h (by simp)

/-- Sequencing preserves agreement. -/
theorem RAgree_mbind {α β : Type} {x y : Res α} {f g : α → CGState → Res β}
    (hxy : RAgree x y)
    (hfg : ∀ a s1 t1, x = Res.ok a s1 → y = Res.ok a t1 → SAgree s1 t1 →
      RAgree (f a s1) (g a t1)) :
    RAgree (mbind x f) (mbind y g) := by
  cases x with
  | ok a s1 =>
      cases y with
      | ok b t1 =>
          obtain ⟨rfl, hst⟩ := (hxy : a = b ∧ SAgree s1 t1)
          exact hfg a s1 t1 rfl rfl hst
      | err e => exact False.elim hxy
      | fatal => exact False.elim hxy
      | nullDeref => exact False.elim hxy
      | nofuel => exact False.elim hxy
  | err e =>
      cases y with
      | ok b t1 => exact False.elim hxy
      | err e2 => exact hxy
      | fatal => exact False.elim hxy
      | nullDeref => exact False.elim hxy
      | nofuel => exact False.elim hxy
  | fatal =>
      cases y with
      | ok b t1 => exact False.elim hxy
      | err e => exact False.elim hxy
      | fatal => exact trivial
      | nullDeref => exact False.elim hxy
      | nofuel => exact False.elim hxy
  | nullDeref =>
      cases y with
      | ok b t1 => exact False.elim hxy
      | err e => exact False.elim hxy
      | fatal => exact False.elim hxy
      | nullDeref => exact trivial
      | nofuel => exact False.elim hxy
  | nofuel =>
      cases y with
      | ok b t1 => exact False.elim hxy
      | err e => exact False.elim hxy
      | fatal => exact False.elim hxy
      | nullDeref => exact False.elim hxy
      | nofuel => exact trivial

/-- `emit` maps agreeing states to agreeing outcomes: the same address is
returned and the common new cell lands inside the agreeing prefix. -/
theorem RAgree_emit (op : Op) (r l m : Int) {s t : CGState} (h : SAgree s t) :
    RAgree (emit op r l m s) (emit op r l m t) := by
  obtain ⟨hc, hlen, htake⟩ := h
  unfold emit
  rw [← hc]
  by_cases hm : s.core.nextCodeIndex = MAX_CODE_LENGTH
  · rw [if_pos hm, if_pos hm]
    exact trivial
  · rw [if_neg hm, if_neg hm]
    refine ⟨rfl, rfl, ?_, ?_⟩
    · simp only [List.length_set]
      exact hlen
    · exact take_succ_set_congr _ _ _ _ hlen htake

/-- Backpatching at a common address with a common value preserves
agreement, wherever the address lies. -/
theorem SAgree_patch (a : Nat) (v : Int) {s t : CGState} (h : SAgree s t) :
    SAgree (patchM a v s) (patchM a v t) := by
  obtain ⟨hc, hlen, htake⟩ := h
  refine ⟨?_, ?_, ?_⟩
  · rw [patchM_core, patchM_core, hc]
  · rw [patchM_length, patchM_length]
    exact hlen
  · show (patchM a v s).vmCode.take s.core.nextCodeIndex
      = (patchM a v t).vmCode.take s.core.nextCodeIndex
    unfold patchM
    dsimp only
    by_cases ha : a < s.core.nextCodeIndex
    · have hg : s.vmCode.get? a = t.vmCode.get? a := get?_congr_of_take _ _ _ _ ha htake
      rw [← hg]
      cases hq : s.vmCode.get? a with
      | none => exact htake
      | some i0 => exact take_set_congr _ _ _ _ _ hlen htake
    · have hn : s.core.nextCodeIndex ≤ a := Nat.le_of_not_lt ha
      cases hqs : s.vmCode.get? a with
      | none =>
          cases hqt : t.vmCode.get? a with
          | none => exact htake
          | some i1 =>
              rw [take_set_of_le _ _ _ _ hn]
              exact htake
      | some i0 =>
          cases hqt : t.vmCode.get? a with
          | none =>
              rw [take_set_of_le _ _ _ _ hn]
              exact htake
          | some i1 =>
              rw [take_set_of_le _ _ _ _ hn, take_set_of_le _ _ _ _ hn]
              exact htake

set_option maxHeartbeats 4000000 in
/-- Master agreement theorem: every grammar procedure, run on two states
whose control parts coincide and whose instruction arrays agree below the
emitter position (and have equal length), produces agreeing outcomes — the
residual cells of `vmCode` never influence control flow, error codes, or
the printable prefix of the emitted code. -/
theorem agree_run : ∀ (fuel : Nat) (c : CallTag) (s t : CGState), SAgree s t →
    RAgree (run fuel c s) (run fuel c t) := by
  intro fuel
  induction fuel with
  | zero => intro c s t _; exact trivial
  | succ fuel ih =>
    intro c s t hst
    obtain ⟨hc, hlen, htake⟩ := hst
    obtain ⟨cs, v⟩ := s
    obtain ⟨ct, w⟩ := t
    have hcc : cs = ct := hc
    subst hcc
    cases c with
    | program =>
        unfold run
        dsimp only [nextTokenS]
        refine RAgree_mbind (ih _ _ _ ⟨rfl, hlen, htake⟩) ?_
        intro a1 s1 t1 _ _ hag1
        obtain ⟨hc1, hlen1, htake1⟩ := hag1
        obtain ⟨c1, v1⟩ := s1
        obtain ⟨c1', w1⟩ := t1
        have he1 : c1 = c1' := hc1
        subst he1
        dsimp only [nextTokenS]
        split
        · refine RAgree_mbind (RAgree_emit _ _ _ _ ⟨rfl, hlen1, htake1⟩) ?_
          intro a2 s2 t2 _ _ hag2
          exact ⟨rfl, hag2⟩
        · exact rfl
    | block =>
        unfold run
        dsimp only
        refine RAgree_mbind (RAgree_emit _ _ _ _ ⟨rfl, hlen, htake⟩) ?_
        intro a1 s1 t1 _ _ hag1
        refine RAgree_mbind (ih _ _ _ hag1) ?_
        intro a2 s2 t2 _ _ hag2
        obtain ⟨hc2, hlen2, htake2⟩ := hag2
        obtain ⟨c2, v2⟩ := s2
        obtain ⟨c2', w2⟩ := t2
        have he2 : c2 = c2' := hc2
        subst he2
        dsimp only
        refine RAgree_mbind (RAgree_emit _ _ _ _ (SAgree_patch _ _ ⟨rfl, hlen2, htake2⟩)) ?_
        intro a3 s3 t3 _ _ hag3
        refine RAgree_mbind (ih _ _ _ hag3) ?_
        intro a4 s4 t4 _ _ hag4
        refine RAgree_mbind (RAgree_emit _ _ _ _ hag4) ?_
        intro a5 s5 t5 _ _ hag5
        exact ⟨rfl, hag5⟩
    | blockDecls =>
        unfold run
        dsimp only
        refine RAgree_mbind ?_ ?_
        · split
          · exact ih _ _ _ ⟨rfl, hlen, htake⟩
          · exact ⟨rfl, rfl, hlen, htake⟩
        · intro a1 s1 t1 _ _ hag1
          obtain ⟨hc1, hlen1, htake1⟩ := hag1
          obtain ⟨c1, v1⟩ := s1
          obtain ⟨c1', w1⟩ := t1
          have he1 : c1 = c1' := hc1
          subst he1
          dsimp only
          refine RAgree_mbind ?_ ?_
          · split
            · exact ih _ _ _ ⟨rfl, hlen1, htake1⟩
            · exact ⟨rfl, rfl, hlen1, htake1⟩
          · intro a2 s2 t2 _ _ hag2
            obtain ⟨hc2, hlen2, htake2⟩ := hag2
            obtain ⟨c2, v2⟩ := s2
            obtain ⟨c2', w2⟩ := t2
            have he2 : c2 = c2' := hc2
            subst he2
            dsimp only
            split
            · exact ih _ _ _ ⟨rfl, hlen2, htake2⟩
            · exact ⟨rfl, rfl, hlen2, htake2⟩
    | const_declaration =>
        unfold run
        dsimp only
        refine RAgree_mbind (ih _ _ _ ⟨rfl, hlen, htake⟩) ?_
        intro a1 s1 t1 _ _ hag1
        obtain ⟨hc1, hlen1, htake1⟩ := hag1
        obtain ⟨c1, v1⟩ := s1
        obtain ⟨c1', w1⟩ := t1
        have he1 : c1 = c1' := hc1
        subst he1
        dsimp only [nextTokenS]
        split
        · exact ⟨rfl, rfl, hlen1, htake1⟩
        · exact rfl
    | constLoop =>
        unfold run
        dsimp only [nextTokenS, pushSym]
        split
        · exact rfl
        · split
          · exact rfl
          · split
            · exact rfl
            · split
              · exact ih _ _ _ ⟨rfl, hlen, htake⟩
              · exact ⟨rfl, rfl, hlen, htake⟩
    | var_declaration =>
        unfold run
        dsimp only
        refine RAgree_mbind (ih _ _ _ ⟨rfl, hlen, htake⟩) ?_
        intro a1 s1 t1 _ _ hag1
        obtain ⟨hc1, hlen1, htake1⟩ := hag1
        obtain ⟨c1, v1⟩ := s1
        obtain ⟨c1', w1⟩ := t1
        have he1 : c1 = c1' := hc1
        subst he1
        dsimp only [nextTokenS]
        split
        · exact ⟨rfl, rfl, hlen1, htake1⟩
        · exact rfl
    | varLoop =>
        unfold run
        dsimp only [nextTokenS, pushSym]
        split
        · exact rfl
        · refine RAgree_mbind (RAgree_emit _ _ _ _ ⟨rfl, hlen, htake⟩) ?_
          intro a1 s1 t1 _ _ hag1
          obtain ⟨hc1, hlen1, htake1⟩ := hag1
          obtain ⟨c1, v1⟩ := s1
          obtain ⟨c1', w1⟩ := t1
          have he1 : c1 = c1' := hc1
          subst he1
          dsimp only [nextTokenS]
          split
          · exact ih _ _ _ ⟨rfl, hlen1, htake1⟩
          · exact ⟨rfl, rfl, hlen1, htake1⟩
    | proc_declaration =>
        unfold run
        dsimp only [nextTokenS, pushProc, setLevelScope]
        split
        · split
          · exact rfl
          · split
            · exact rfl
            · refine RAgree_mbind (ih _ _ _ ⟨rfl, hlen, htake⟩) ?_
              intro a1 s1 t1 _ _ hag1
              obtain ⟨hc1, hlen1, htake1⟩ := hag1
              obtain ⟨c1, v1⟩ := s1
              obtain ⟨c1', w1⟩ := t1
              have he1 : c1 = c1' := hc1
              subst he1
              dsimp only [nextTokenS, setLevelScope]
              split
              · exact rfl
              · exact ih _ _ _ ⟨rfl, hlen1, htake1⟩
        · exact ⟨rfl, rfl, hlen, htake⟩
    | statement =>
        unfold run
        dsimp only [nextTokenS]
        by_cases t1 : getCurrentTokenType cs = Tok.identsym
        · rw [if_pos t1, if_pos t1]
          split
          · exact trivial
          · split
            · exact rfl
            · split
              · exact rfl
              · split
                · exact rfl
                · refine RAgree_mbind (ih _ _ _ ⟨rfl, hlen, htake⟩) ?_
                  intro a1 s1 t1x _ _ hag1
                  exact ⟨rfl, hag1⟩
        · rw [if_neg t1, if_neg t1]
          by_cases t2 : getCurrentTokenType cs = Tok.callsym
          · rw [if_pos t2, if_pos t2]
            split
            · exact rfl
            · split
              · exact trivial
              · split
                · exact rfl
                · split
                  · refine RAgree_mbind (RAgree_emit _ _ _ _ ⟨rfl, hlen, htake⟩) ?_
                    intro a1 s1 t1x _ _ hag1
                    obtain ⟨hc1, hlen1, htake1⟩ := hag1
                    obtain ⟨c1, v1⟩ := s1
                    obtain ⟨c1', w1⟩ := t1x
                    have he1 : c1 = c1' := hc1
                    subst he1
                    exact ⟨rfl, rfl, hlen1, htake1⟩
                  · exact rfl
          · rw [if_neg t2, if_neg t2]
            by_cases t3 : getCurrentTokenType cs = Tok.beginsym
            · rw [if_pos t3, if_pos t3]
              refine RAgree_mbind (ih _ _ _ ⟨rfl, hlen, htake⟩) ?_
              intro a1 s1 t1x _ _ hag1
              refine RAgree_mbind (ih _ _ _ hag1) ?_
              intro a2 s2 t2x _ _ hag2
              obtain ⟨hc2, hlen2, htake2⟩ := hag2
              obtain ⟨c2, v2⟩ := s2
              obtain ⟨c2', w2⟩ := t2x
              have he2 : c2 = c2' := hc2
              subst he2
              dsimp only [nextTokenS]
              split
              · exact rfl
              · exact ⟨rfl, rfl, hlen2, htake2⟩
            · rw [if_neg t3, if_neg t3]
              by_cases t4 : getCurrentTokenType cs = Tok.ifsym
              · rw [if_pos t4, if_pos t4]
                refine RAgree_mbind (ih _ _ _ ⟨rfl, hlen, htake⟩) ?_
                intro a1 s1 t1x _ _ hag1
                obtain ⟨hc1, hlen1, htake1⟩ := hag1
                obtain ⟨c1, v1⟩ := s1
                obtain ⟨c1', w1⟩ := t1x
                have he1 : c1 = c1' := hc1
                subst he1
                dsimp only [nextTokenS]
                split
                · exact rfl
                · refine RAgree_mbind (RAgree_emit _ _ _ _ ⟨rfl, hlen1, htake1⟩) ?_
                  intro a2 s2 t2x _ _ hag2
                  refine RAgree_mbind (ih _ _ _ hag2) ?_
                  intro a3 s3 t3x _ _ hag3
                  obtain ⟨hc3, hlen3, htake3⟩ := hag3
                  obtain ⟨c3, v3⟩ := s3
                  obtain ⟨c3', w3⟩ := t3x
                  have he3 : c3 = c3' := hc3
                  subst he3
                  dsimp only [nextTokenS]
                  split
                  · refine RAgree_mbind
                      (RAgree_emit _ _ _ _ (SAgree_patch _ _ ⟨rfl, hlen3, htake3⟩)) ?_
                    intro a4 s4 t4x _ _ hag4
                    obtain ⟨hc4, hlen4, htake4⟩ := hag4
                    obtain ⟨c4, v4⟩ := s4
                    obtain ⟨c4', w4⟩ := t4x
                    have he4 : c4 = c4' := hc4
                    subst he4
                    dsimp only [nextTokenS]
                    refine RAgree_mbind (ih _ _ _ (SAgree_patch _ _ ⟨rfl, hlen4, htake4⟩)) ?_
                    intro a5 s5 t5x _ _ hag5
                    obtain ⟨hc5, hlen5, htake5⟩ := hag5
                    obtain ⟨c5, v5⟩ := s5
                    obtain ⟨c5', w5⟩ := t5x
                    have he5 : c5 = c5' := hc5
                    subst he5
                    exact ⟨rfl, SAgree_patch _ _ ⟨rfl, hlen5, htake5⟩⟩
                  · exact ⟨rfl, SAgree_patch _ _ ⟨rfl, hlen3, htake3⟩⟩
              · rw [if_neg t4, if_neg t4]
                by_cases t5 : getCurrentTokenType cs = Tok.whilesym
                · rw [if_pos t5, if_pos t5]
                  refine RAgree_mbind (ih _ _ _ ⟨rfl, hlen, htake⟩) ?_
                  intro a1 s1 t1x _ _ hag1
                  obtain ⟨hc1, hlen1, htake1⟩ := hag1
                  obtain ⟨c1, v1⟩ := s1
                  obtain ⟨c1', w1⟩ := t1x
                  have he1 : c1 = c1' := hc1
                  subst he1
                  dsimp only
                  refine RAgree_mbind (RAgree_emit _ _ _ _ ⟨rfl, hlen1, htake1⟩) ?_
                  intro a2 s2 t2x _ _ hag2
                  obtain ⟨hc2, hlen2, htake2⟩ := hag2
                  obtain ⟨c2, v2⟩ := s2
                  obtain ⟨c2', w2⟩ := t2x
                  have he2 : c2 = c2' := hc2
                  subst he2
                  dsimp only [nextTokenS]
                  split
                  · exact rfl
                  · refine RAgree_mbind (ih _ _ _ ⟨rfl, hlen2, htake2⟩) ?_
                    intro a3 s3 t3x _ _ hag3
                    refine RAgree_mbind (RAgree_emit _ _ _ _ hag3) ?_
                    intro a4 s4 t4x _ _ hag4
                    obtain ⟨hc4, hlen4, htake4⟩ := hag4
                    obtain ⟨c4, v4⟩ := s4
                    obtain ⟨c4', w4⟩ := t4x
                    have he4 : c4 = c4' := hc4
                    subst he4
                    exact ⟨rfl, SAgree_patch _ _ ⟨rfl, hlen4, htake4⟩⟩
                · rw [if_neg t5, if_neg t5]
                  by_cases t6 : getCurrentTokenType cs = Tok.writesym
                  · rw [if_pos t6, if_pos t6]
                    split
                    · exact rfl
                    · split
                      · exact trivial
                      · split
                        · exact rfl
                        · split
                          · exact rfl
                          · refine RAgree_mbind (RAgree_emit _ _ _ _ ⟨rfl, hlen, htake⟩) ?_
                            intro a1 s1 t1x _ _ hag1
                            refine RAgree_mbind (RAgree_emit _ _ _ _ hag1) ?_
                            intro a2 s2 t2x _ _ hag2
                            obtain ⟨hc2, hlen2, htake2⟩ := hag2
                            obtain ⟨c2, v2⟩ := s2
                            obtain ⟨c2', w2⟩ := t2x
                            have he2 : c2 = c2' := hc2
                            subst he2
                            exact ⟨rfl, rfl, hlen2, htake2⟩
                  · rw [if_neg t6, if_neg t6]
                    by_cases t7 : getCurrentTokenType cs = Tok.readsym
                    · rw [if_pos t7, if_pos t7]
                      refine RAgree_mbind (RAgree_emit _ _ _ _ ⟨rfl, hlen, htake⟩) ?_
                      intro a1 s1 t1x _ _ hag1
                      obtain ⟨hc1, hlen1, htake1⟩ := hag1
                      obtain ⟨c1, v1⟩ := s1
                      obtain ⟨c1', w1⟩ := t1x
                      have he1 : c1 = c1' := hc1
                      subst he1
                      dsimp only [nextTokenS]
                      split
                      · exact rfl
                      · split
                        · exact trivial
                        · split
                          · exact rfl
                          · split
                            · exact rfl
                            · refine RAgree_mbind
                                (RAgree_emit _ _ _ _ ⟨rfl, hlen1, htake1⟩) ?_
                              intro a2 s2 t2x _ _ hag2
                              exact ⟨rfl, hag2⟩
                    · rw [if_neg t7, if_neg t7]
                      exact ⟨rfl, rfl, hlen, htake⟩
    | stmtSemiLoop =>
        unfold run
        dsimp only [nextTokenS]
        split
        · refine RAgree_mbind (ih _ _ _ ⟨rfl, hlen, htake⟩) ?_
          intro a1 s1 t1 _ _ hag1
          exact ih _ _ _ hag1
        · exact ⟨rfl, rfl, hlen, htake⟩
    | condition =>
        unfold run
        dsimp only [nextTokenS]
        refine RAgree_mbind ?_ ?_
        · split
          · refine RAgree_mbind (ih _ _ _ ⟨rfl, hlen, htake⟩) ?_
            intro a1 s1 t1 _ _ hag1
            refine RAgree_mbind (RAgree_emit _ _ _ _ hag1) ?_
            intro a2 s2 t2 _ _ hag2
            exact ⟨rfl, hag2⟩
          · refine RAgree_mbind (ih _ _ _ ⟨rfl, hlen, htake⟩) ?_
            intro a1 s1 t1 _ _ hag1
            obtain ⟨hc1, hlen1, htake1⟩ := hag1
            obtain ⟨c1, v1⟩ := s1
            obtain ⟨c1', w1⟩ := t1
            have he1 : c1 = c1' := hc1
            subst he1
            dsimp only [nextTokenS]
            split
            · refine RAgree_mbind (RAgree_emit _ _ _ _ ⟨rfl, hlen1, htake1⟩) ?_
              intro a2 s2 t2 _ _ hag2
              obtain ⟨hc2, hlen2, htake2⟩ := hag2
              obtain ⟨c2, v2⟩ := s2
              obtain ⟨c2', w2⟩ := t2
              have he2 : c2 = c2' := hc2
              subst he2
              exact ⟨rfl, rfl, hlen2, htake2⟩
            · exact rfl
        · intro a1 s1 t1 _ _ hag1
          refine RAgree_mbind (ih _ _ _ hag1) ?_
          intro a2 s2 t2 _ _ hag2
          exact ⟨rfl, hag2⟩
    | expression =>
        unfold run
        dsimp only [nextTokenS]
        refine RAgree_mbind ?_ ?_
        · split
          · refine RAgree_mbind (ih _ _ _ ⟨rfl, hlen, htake⟩) ?_
            intro a1 s1 t1 _ _ hag1
            split
            · refine RAgree_mbind (RAgree_emit _ _ _ _ hag1) ?_
              intro a2 s2 t2 _ _ hag2
              exact ⟨rfl, hag2⟩
            · exact ⟨rfl, hag1⟩
          · exact ⟨rfl, rfl, hlen, htake⟩
        · intro a1 s1 t1 _ _ hag1
          refine RAgree_mbind (ih _ _ _ hag1) ?_
          intro a2 s2 t2 _ _ hag2
          exact ih _ _ _ hag2
    | exprLoop op =>
        unfold run
        dsimp only [nextTokenS]
        split
        · refine RAgree_mbind (ih _ _ _ ⟨rfl, hlen, htake⟩) ?_
          intro a1 s1 t1 _ _ hag1
          refine RAgree_mbind (RAgree_emit _ _ _ _ hag1) ?_
          intro a2 s2 t2 _ _ hag2
          exact ih _ _ _ hag2
        · exact ⟨rfl, rfl, hlen, htake⟩
    | term =>
        unfold run
        dsimp only
        refine RAgree_mbind (ih _ _ _ ⟨rfl, hlen, htake⟩) ?_
        intro a1 s1 t1 _ _ hag1
        exact ih _ _ _ hag1
    | termLoop op =>
        unfold run
        dsimp only [nextTokenS]
        split
        · refine RAgree_mbind (ih _ _ _ ⟨rfl, hlen, htake⟩) ?_
          intro a1 s1 t1 _ _ hag1
          refine RAgree_mbind (RAgree_emit _ _ _ _ hag1) ?_
          intro a2 s2 t2 _ _ hag2
          exact ih _ _ _ hag2
        · exact ⟨rfl, rfl, hlen, htake⟩
    | factor =>
        unfold run
        dsimp only [nextTokenS]
        split
        · exact rfl
        · split
          · split
            · exact rfl
            · split
              · refine RAgree_mbind (RAgree_emit _ _ _ _ ⟨rfl, hlen, htake⟩) ?_
                intro a1 s1 t1 _ _ hag1
                obtain ⟨hc1, hlen1, htake1⟩ := hag1
                obtain ⟨c1, v1⟩ := s1
                obtain ⟨c1', w1⟩ := t1
                have he1 : c1 = c1' := hc1
                subst he1
                exact ⟨rfl, rfl, hlen1, htake1⟩
              · refine RAgree_mbind (RAgree_emit _ _ _ _ ⟨rfl, hlen, htake⟩) ?_
                intro a1 s1 t1 _ _ hag1
                obtain ⟨hc1, hlen1, htake1⟩ := hag1
                obtain ⟨c1, v1⟩ := s1
                obtain ⟨c1', w1⟩ := t1
                have he1 : c1 = c1' := hc1
                subst he1
                exact ⟨rfl, rfl, hlen1, htake1⟩
          · split
            · refine RAgree_mbind (RAgree_emit _ _ _ _ ⟨rfl, hlen, htake⟩) ?_
              intro a1 s1 t1 _ _ hag1
              obtain ⟨hc1, hlen1, htake1⟩ := hag1
              obtain ⟨c1, v1⟩ := s1
              obtain ⟨c1', w1⟩ := t1
              have he1 : c1 = c1' := hc1
              subst he1
              exact ⟨rfl, rfl, hlen1, htake1⟩
            · split
              · refine RAgree_mbind (ih _ _ _ ⟨rfl, hlen, htake⟩) ?_
                intro a1 s1 t1 _ _ hag1
                obtain ⟨hc1, hlen1, htake1⟩ := hag1
                obtain ⟨c1, v1⟩ := s1
                obtain ⟨c1', w1⟩ := t1
                have he1 : c1 = c1' := hc1
                subst he1
                dsimp only [nextTokenS]
                split
                · exact rfl
                · exact ⟨rfl, rfl, hlen1, htake1⟩
              · exact rfl

/-- C8: every call of `emit` made when the instruction count has reached
`MAX_CODE_LENGTH` terminates the whole process (the `exit(0)` of the C
code, modelled by `Res.fatal`): no address is returned and no numeric error
code is propagated to the caller.  Moreover any call of `emit` that does
return wrote at a position distinct from the bound and left the array
length unchanged, so no instruction is ever written past the bound. -/
theorem c8_emit_capacity_fatal (op : Op) (r l m : Int) (s : CGState)
    (h : s.core.nextCodeIndex = MAX_CODE_LENGTH) :
    emit op r l m s = Res.fatal ∧
    (∀ (u : CGState) (a : Nat) (u' : CGState), emit op r l m u = Res.ok a u' →
      u.core.nextCodeIndex ≠ MAX_CODE_LENGTH ∧ u'.vmCode.length = u.vmCode.length ∧
      u'.core.nextCodeIndex = u.core.nextCodeIndex + 1) := by
  constructor
  · simp [emit, h]
  · intro u a u' hu
    obtain ⟨-, hne, hvm, hcore⟩ := emit_ok_inv hu
    exact ⟨hne, by rw [hvm]; exact List.length_set _ _ _, by rw [hcore]⟩

/-- C8 witness: at a concrete state whose emitter has reached the bound,
`emit` is fatal. -/
theorem c8_emit_capacity_fatal_witness :
    emit Op.LIT 0 0 0 fullState = Res.fatal :=
  (c8_emit_capacity_fatal Op.LIT 0 0 0 fullState rfl).1

/-- C7: every `block` that returns normally (on a state with the C array's
fixed length and an in-bounds emitter) emits exactly the shape the spec
describes: a leading jump later backpatched to the position reached after
the declaration groups (const, var, proc, at most once each in that order),
then the 4-cell frame reservation, then the code of exactly one statement,
then a return instruction. -/
theorem c7_block_structure (fuel : Nat) (s t : CGState)
    (hlen : s.vmCode.length = MAX_CODE_LENGTH)
    (hidx : s.core.nextCodeIndex ≤ MAX_CODE_LENGTH)
    (h : block (fuel + 1) s = Res.ok () t) :
    BlockShape fuel s t := by
  unfold block at h
  unfold run at h
  dsimp only at h
  obtain ⟨jmpAddr, s1, he, h⟩ := mbind_ok_inv h
  obtain ⟨a2, sd, hd, h⟩ := mbind_ok_inv h
  obtain ⟨a3, s2, hei, h⟩ := mbind_ok_inv h
  obtain ⟨a4, s3, hst, h⟩ := mbind_ok_inv h
  obtain ⟨a5, s5, her, h⟩ := mbind_ok_inv h
  cases h
  obtain ⟨hjmp, hne0, hvm1, hcore1⟩ := emit_ok_inv he
  subst hjmp
  have hn0 : s.core.nextCodeIndex < MAX_CODE_LENGTH := Nat.lt_of_le_of_ne hidx hne0
  have c1 : s1.vmCode.get? s.core.nextCodeIndex
      = some { op := Op.JMP, r := 0, l := 0, m := 0 } := by
    rw [hvm1]
    exact get?_set_self _ _ _ (by rw [hlen]; exact hn0)
  have hlen1 : s1.vmCode.length = MAX_CODE_LENGTH := by
    rw [hvm1, List.length_set, hlen]
  have hidx1 : s1.core.nextCodeIndex = s.core.nextCodeIndex + 1 := by rw [hcore1]
  obtain ⟨hlend, hmond, hgetd, hmaxd⟩ := frames_run fuel CallTag.blockDecls s1 () sd hd
  have hd1 : s.core.nextCodeIndex + 1 ≤ sd.core.nextCodeIndex := by
    rw [← hidx1]; exact hmond
  have c2 : sd.vmCode.get? s.core.nextCodeIndex
      = some { op := Op.JMP, r := 0, l := 0, m := 0 } := by
    rw [hgetd _ (by rw [hidx1]; exact Nat.lt_succ_self _)]
    exact c1
  have c3 : (patchM s.core.nextCodeIndex (Int.ofNat sd.core.nextCodeIndex) sd).vmCode.get?
        s.core.nextCodeIndex
      = some { op := Op.JMP, r := 0, l := 0, m := Int.ofNat sd.core.nextCodeIndex } :=
    patchM_get?_self _ _ _ _ c2
  obtain ⟨ha3, hne2, hvm2, hcore2⟩ := emit_ok_inv hei
  subst ha3
  have hpc : (patchM s.core.nextCodeIndex (Int.ofNat sd.core.nextCodeIndex) sd).core.nextCodeIndex
      = sd.core.nextCodeIndex := rfl
  rw [hpc] at hvm2 hcore2 hne2
  have hlenp : (patchM s.core.nextCodeIndex (Int.ofNat sd.core.nextCodeIndex) sd).vmCode.length
      = MAX_CODE_LENGTH := by
    rw [patchM_length, hlend, hlen1]
  have hdmax : sd.core.nextCodeIndex ≤ MAX_CODE_LENGTH :=
    hmaxd (by rw [hidx1]; exact hn0)
  have hdlt : sd.core.nextCodeIndex < MAX_CODE_LENGTH := Nat.lt_of_le_of_ne hdmax hne2
  have hn0d : s.core.nextCodeIndex ≠ sd.core.nextCodeIndex := Nat.ne_of_lt hd1
  have c4 : s2.vmCode.get? s.core.nextCodeIndex
      = some { op := Op.JMP, r := 0, l := 0, m := Int.ofNat sd.core.nextCodeIndex } := by
    rw [hvm2, get?_set_ne _ _ _ _ hn0d]
    exact c3
  have c5 : s2.vmCode.get? sd.core.nextCodeIndex
      = some { op := Op.INC, r := 0, l := 0, m := 4 } := by
    rw [hvm2]
    exact get?_set_self _ _ _ (by rw [hlenp]; exact hdlt)
  have hlen2 : s2.vmCode.length = MAX_CODE_LENGTH := by
    rw [hvm2, List.length_set]
    exact hlenp
  have hidx2 : s2.core.nextCodeIndex = sd.core.nextCodeIndex + 1 := by rw [hcore2]
  obtain ⟨hlen3, hmon3, hget3, hmax3⟩ := frames_run fuel CallTag.statement s2 () s3 hst
  have c6 : s3.vmCode.get? s.core.nextCodeIndex
      = some { op := Op.JMP, r := 0, l := 0, m := Int.ofNat sd.core.nextCodeIndex } := by
    rw [hget3 _ (by rw [hidx2]; exact Nat.lt_succ_of_lt hd1)]
    exact c4
  have c7 : s3.vmCode.get? sd.core.nextCodeIndex
      = some { op := Op.INC, r := 0, l := 0, m := 4 } := by
    rw [hget3 _ (by rw [hidx2]; exact Nat.lt_succ_self _)]
    exact c5
  have hs2s3 : s2.core.nextCodeIndex ≤ s3.core.nextCodeIndex := hmon3
  have hn0s3 : s.core.nextCodeIndex < s3.core.nextCodeIndex :=
    Nat.lt_of_lt_of_le (by rw [hidx2]; exact Nat.lt_succ_of_lt hd1) hs2s3
  have hds3 : sd.core.nextCodeIndex < s3.core.nextCodeIndex :=
    Nat.lt_of_lt_of_le (by rw [hidx2]; exact Nat.lt_succ_self _) hs2s3
  obtain ⟨ha5, hneR, hvmR, hcoreR⟩ := emit_ok_inv her
  subst ha5
  have hs3max : s3.core.nextCodeIndex ≤ MAX_CODE_LENGTH :=
    hmax3 (by rw [hidx2]; exact hdlt)
  have hs3lt : s3.core.nextCodeIndex < MAX_CODE_LENGTH := Nat.lt_of_le_of_ne hs3max hneR
  have c8 : t.vmCode.get? s.core.nextCodeIndex
      = some { op := Op.JMP, r := 0, l := 0, m := Int.ofNat sd.core.nextCodeIndex } := by
    rw [hvmR, get?_set_ne _ _ _ _ (Nat.ne_of_lt hn0s3)]
    exact c6
  have c9 : t.vmCode.get? sd.core.nextCodeIndex
      = some { op := Op.INC, r := 0, l := 0, m := 4 } := by
    rw [hvmR, get?_set_ne _ _ _ _ (Nat.ne_of_lt hds3)]
    exact c7
  have c10 : t.vmCode.get? s3.core.nextCodeIndex
      = some { op := Op.RTN, r := 0, l := 0, m := 0 } := by
    rw [hvmR]
    exact get?_set_self _ _ _ (by rw [hlen3, hlen2]; exact hs3lt)
  have hidxT : t.core.nextCodeIndex = s3.core.nextCodeIndex + 1 := by rw [hcoreR]
  exact ⟨s1, sd, s2, s3, he, hd, hei, hst, her, c8, c9, c10, hidxT,
         hd1, hidx2.symm, hs2s3⟩

/-- C7 witness: the concrete `block` run on the empty token list has the
described shape. -/
theorem c7_block_structure_witness : BlockShape 4 c7wS c7wT :=
  c7_block_structure 4 c7wS c7wT (by simp [c7wS, initState, arr0]) (by simp [c7wS, initState]) rfl

/-- C9: `codeGenerator` is a function of the token sequence alone: two
runs on the same token list, each starting from the reset the C function
performs at entry (level 0, global scope, iterator and emitter at 0, fresh
symbol table), return the same error code and byte-identical printed
output, whatever residual contents the instruction array kept from earlier
compilations.  In particular, compiling the same token sequence twice
yields identical results. -/
theorem c9_codeGenerator_deterministic (fuel : Nat) (tokenList : List Token)
    (i1 i2 : List Instr)
    (h1 : i1.length = MAX_CODE_LENGTH) (h2 : i2.length = MAX_CODE_LENGTH) :
    codeGenerator fuel tokenList i1 = codeGenerator fuel tokenList i2 := by
  have hag : RAgree (run fuel CallTag.program (initState tokenList i1))
      (run fuel CallTag.program (initState tokenList i2)) :=
    agree_run fuel _ _ _ ⟨rfl, h1.trans h2.symm, rfl⟩
  unfold codeGenerator
  cases hx : run fuel CallTag.program (initState tokenList i1) with
  | ok a s =>
      cases hy : run fuel CallTag.program (initState tokenList i2) with
      | ok b t =>
          rw [hx, hy] at hag
          obtain ⟨-, hc, hlen, htake⟩ := hag
          show CGResult.done 0 (s.vmCode.take s.core.nextCodeIndex)
            = CGResult.done 0 (t.vmCode.take t.core.nextCodeIndex)
          rw [← hc, htake]
      | err e => rw [hx, hy] at hag; exact False.elim hag
      | fatal => rw [hx, hy] at hag; exact False.elim hag
      | nullDeref => rw [hx, hy] at hag; exact False.elim hag
      | nofuel => rw [hx, hy] at hag; exact False.elim hag
  | err e =>
      cases hy : run fuel CallTag.program (initState tokenList i2) with
      | ok b t => rw [hx, hy] at hag; exact False.elim hag
      | err e2 =>
          rw [hx, hy] at hag
          have he : e = e2 := hag
          rw [he]
      | fatal => rw [hx, hy] at hag; exact False.elim hag
      | nullDeref => rw [hx, hy] at hag; exact False.elim hag
      | nofuel => rw [hx, hy] at hag; exact False.elim hag
  | fatal =>
      cases hy : run fuel CallTag.program (initState tokenList i2) with
      | fatal => rfl
      | ok b t => rw [hx, hy] at hag; exact False.elim hag
      | err e => rw [hx, hy] at hag; exact False.elim hag
      | nullDeref => rw [hx, hy] at hag; exact False.elim hag
      | nofuel => rw [hx, hy] at hag; exact False.elim hag
  | nullDeref =>
      cases hy : run fuel CallTag.program (initState tokenList i2) with
      | nullDeref => rfl
      | ok b t => rw [hx, hy] at hag; exact False.elim hag
      | err e => rw [hx, hy] at hag; exact False.elim hag
      | fatal => rw [hx, hy] at hag; exact False.elim hag
      | nofuel => rw [hx, hy] at hag; exact False.elim hag
  | nofuel =>
      cases hy : run fuel CallTag.program (initState tokenList i2) with
      | nofuel => rfl
      | ok b t => rw [hx, hy] at hag; exact False.elim hag
      | err e => rw [hx, hy] at hag; exact False.elim hag
      | fatal => rw [hx, hy] at hag; exact False.elim hag
      | nullDeref => rw [hx, hy] at hag; exact False.elim hag

/-- C9 witness: two concrete runs on the same accepted token sequence with
different residual array contents produce identical results. -/
theorem c9_codeGenerator_deterministic_witness :
    codeGenerator 30 ifElseTokens arr0 = codeGenerator 30 ifElseTokens arrJ :=
  c9_codeGenerator_deterministic 30 ifElseTokens arr0 arrJ
    (by simp [arr0]) (by simp [arrJ])

/-- C1: the spec claims `const a = 5; var b; begin b := a + 1; write b end.`
compiles with error code 0 to code containing a literal-load of 5, an add, a
store, a load, a write and a final halt.  In fact the generator returns
error code 10 and prints nothing: `expression` tests the token type it
captured before the first term, so the `+` after `a` is never consumed, and
the compound-statement loop then fails to find `end`. -/
theorem c1_scenario_actual_error :
    codeGenerator 30 c1Tokens arr0 = CGResult.done 10 [] := rfl

/-- C2: the spec claims `expression` parses a left-to-right chain of terms
separated by `+`/`-` at the chain position (emitting ADD/SUB), and `term` a
chain of factors separated by `*`/`/` (emitting MUL/DIV).  In fact both
loops test the token type captured before the first operand: on `x + x` the
iterator stops at position 1 (the `+` is never consumed) and only the one
LOD is emitted, with no ADD; likewise on `x * x` with no MUL. -/
theorem c2_expression_term_chain_actual :
    (resState (expression 30 stExprChain)).map
        (fun s => (s.core.currentTokenInd, s.vmCode.take s.core.nextCodeIndex))
      = some (1, [{ op := Op.LOD, r := 0, l := 0, m := 1 }]) ∧
    (resState (term 30 stTermChain)).map
        (fun s => (s.core.currentTokenInd, s.vmCode.take s.core.nextCodeIndex))
      = some (1, [{ op := Op.LOD, r := 0, l := 0, m := 1 }]) :=
  ⟨rfl, rfl⟩

/-- C3: the spec claims that with an else-branch the conditional jump is
backpatched to the address past the unconditional jump (here 9) and the
unconditional jump to the address after the else-branch (here 10).  On the
accepted program `var x; begin if x = x then x := x else x := x end.` the
code actually emitted has the JPC at address 6 pointing at 10 (after the
else-branch) and the JMP at address 8 pointing at 9 (the instruction
immediately after itself): the two targets are swapped. -/
theorem c3_if_else_backpatch_actual :
    codeGenerator 30 ifElseTokens arr0 =
      CGResult.done 0
        [{ op := Op.JMP, r := 0, l := 0, m := 2 }, { op := Op.INC, r := 0, l := 0, m := 1 },
         { op := Op.INC, r := 0, l := 0, m := 4 }, { op := Op.LOD, r := 0, l := 0, m := 1 },
         { op := Op.EQL, r := 0, l := 0, m := 0 }, { op := Op.LOD, r := 0, l := 0, m := 1 },
         { op := Op.JPC, r := 0, l := 0, m := 10 }, { op := Op.LOD, r := 0, l := 0, m := 1 },
         { op := Op.JMP, r := 0, l := 0, m := 9 }, { op := Op.LOD, r := 0, l := 0, m := 1 },
         { op := Op.RTN, r := 0, l := 0, m := 0 }, { op := Op.SIO_HALT, r := 0, l := 0, m := 3 }] :=
  rfl

/-- C4: the spec claims every placeholder jump is backpatched exactly once
in an accepted run.  On `var x; begin if x = x then x := x else x := x end.`
the run is accepted (error code 0), and the ghost backpatch trace is
`[0, 6, 8, 6]`: the placeholder JPC at address 6 is backpatched twice (once
after the then-branch and once after the else-branch). -/
theorem c4_placeholder_backpatched_twice :
    (∃ out, codeGenerator 30 ifElseTokens arr0 = CGResult.done 0 out) ∧
    (resState (program 30 (initState ifElseTokens arr0))).map (fun s => s.core.patchTrace)
      = some [0, 6, 8, 6] ∧
    ([0, 6, 8, 6] : List Nat).count 6 = 2 :=
  ⟨⟨_, rfl⟩, rfl, rfl⟩

/-- C5: the spec claims `condition` emits both operand expressions' code
followed by the comparison, and for `odd expression` the expression then
the is-odd test and nothing more.  In fact on `x = x` the comparison EQL is
emitted between the two operand loads (`LOD, EQL, LOD`), and on `odd x`
followed by `then` the generator returns error 15, because after emitting
ODD it falls through to parse a second expression. -/
theorem c5_condition_emission_actual :
    (resState (condition 30 stCondRel)).map (fun s => s.vmCode.take s.core.nextCodeIndex)
      = some [{ op := Op.LOD, r := 0, l := 0, m := 1 }, { op := Op.EQL, r := 0, l := 0, m := 0 },
              { op := Op.LOD, r := 0, l := 0, m := 1 }] ∧
    condition 30 stCondOdd = Res.err 15 :=
  ⟨rfl, rfl⟩

/-- C6: compiling `var x; begin call x end.`, where `x` is a variable,
returns error code 17 (calling a non-procedure) and prints no code. -/
theorem c6_call_non_procedure_err17 :
    codeGenerator 30 c6Tokens arr0 = CGResult.done 17 [] := rfl

/-- C10: in the assignment, call, write and read branches of `statement`
the `findSymbol` result is dereferenced without a NULL check: on each of
the four inputs below, whose identifier is absent from the symbol table,
the run ends in the null dereference rather than error 15.  Only `factor`
guards the NULL case: with the same undeclared identifier in factor
position the generator returns error 15. -/
theorem c10_statement_null_deref :
    codeGenerator 30 [tkn Tok.identsym "y"] arr0 = CGResult.nullDeref ∧
    codeGenerator 30 [tkn Tok.callsym "call", tkn Tok.identsym "y"] arr0 = CGResult.nullDeref ∧
    codeGenerator 30 [tkn Tok.writesym "write", tkn Tok.identsym "y"] arr0 = CGResult.nullDeref ∧
    codeGenerator 30 [tkn Tok.readsym "read", tkn Tok.identsym "y"] arr0 = CGResult.nullDeref ∧
    codeGenerator 30 c10FactorTokens arr0 = CGResult.done 15 [] :=
  ⟨rfl, rfl, rfl, rfl, rfl⟩

end PL0
